import Mathlib

/-!
kubegene `pkg/util/util.go`: status tracking and match rules.

A shallow embedding of `src/pkg/util/util.go` together with theorems about it.

Conventions of the embedding.

* Go functions that mutate `*Execution` in place become functions that take the
  execution and return the execution after the call.
* `time.Now()` / `metav1.Now()` become explicit clock-reading arguments, one
  argument per call site, in source order.
* A Go `map[string]T` is `GoMap T`: `none` is the nil map, `some f` a non-nil map
  whose entry under `k` is `f k`.
* A Go slice is `Slice T`: `none` is the nil slice.
* `glog` calls only log; they are left out.  `KeyOf(exec)` appears only as a log
  argument and cannot fail on an `*Execution`, which carries object metadata.
* A call that can panic returns an `Outcome` next to the state it left behind.
-/

namespace Kubegene

/-! ## Time -/

/-- Instants of `metav1.Time`, counted in nanoseconds from the Go zero instant
(January 1, year 1, 00:00:00 UTC); `0` is the zero value `metav1.Time{}`. -/
abbrev Time := Int

/-- `(metav1.Time).IsZero`. -/
def Time.IsZero (t : Time) : Bool := t == 0

/-! ## Go maps and slices -/

/-- Go `map[string]α`; `none` is the nil map. -/
abbrev GoMap (α : Type) := Option (String → Option α)

/-- The comma-ok read `v, ok := m[k]`; a nil map reads as having no entry. -/
def GoMap.lookup {α : Type} (m : GoMap α) (k : String) : Option α :=
  match m with
  | none => none
  | some f => f k

/-- The result of `make(map[string]α)`: non-nil, no entries. -/
def GoMap.make {α : Type} : GoMap α := some (fun _ => none)

/-- The assignment `m[k] = v`; `none` is the run-time panic
"assignment to entry in nil map". -/
def GoMap.assign {α : Type} (m : GoMap α) (k : String) (v : α) : Option (GoMap α) :=
  match m with
  | none => none
  | some f => some (some (fun j => if j = k then some v else f j))

/-- Go `[]α`; `none` is the nil slice. -/
abbrev Slice (α : Type) := Option (List α)

/-- Elements visited by `for ... range s`; a nil slice has none. -/
def Slice.elems {α : Type} (s : Slice α) : List α :=
  match s with
  | none => []
  | some l => l

/-! ## Data model (`pkg/apis/gene/v1alpha1`, `k8s.io/api`) -/

/-- `genev1alpha1.VertexPhase`, a Go string type. -/
abbrev VertexPhase := String

/-- Modelled from the spec: the phase constants of package `v1alpha1` are not in
`src/`; the glossary lists the phases Pending, Running, Succeeded, Failed, Error. -/
def VertexPending : VertexPhase := "Pending"

/-- Modelled from the spec: phase constant Running of package `v1alpha1`. -/
def VertexRunning : VertexPhase := "Running"

/-- Modelled from the spec: phase constant Succeeded of package `v1alpha1`. -/
def VertexSucceeded : VertexPhase := "Succeeded"

/-- Modelled from the spec: phase constant Failed of package `v1alpha1`. -/
def VertexFailed : VertexPhase := "Failed"

/-- Modelled from the spec: phase constant Error of package `v1alpha1`. -/
def VertexError : VertexPhase := "Error"

/-- `genev1alpha1.VertexType`, a Go string type. -/
abbrev VertexType := String

/-- Modelled from the spec: the vertex-type constant of package `v1alpha1` for a
job-backed vertex is not in `src/`. -/
def JobVertexType : VertexType := "Job"

/-- Modelled from the spec: `genev1alpha1.VertexStatus` is declared outside `src/`;
the fields are those of section 3 of the spec and of the composite literal in
`InitializeVertexStatus`. -/
structure VertexStatus where
  ID : String
  Name : String
  Phase : VertexPhase
  Message : String
  StartedAt : Time
  FinishedAt : Time
  Children : Slice String
  -- Go field `Type`; that name is reserved in Lean
  Type_ : VertexType
  deriving DecidableEq, Repr

/-- Modelled from the spec: `genev1alpha1.ExecutionStatus` is declared outside
`src/`; the fields are the ones `util.go` reads and writes. -/
structure ExecutionStatus where
  Phase : VertexPhase
  Message : String
  StartedAt : Time
  FinishedAt : Time
  Vertices : GoMap VertexStatus

/-- Modelled from the spec: `genev1alpha1.Execution` is declared outside `src/`.
Object metadata and `Spec` are never read or written by `util.go` (outside log
arguments) and are left out. -/
structure Execution where
  Status : ExecutionStatus

/-- `genev1alpha1.MatchOperator`, a Go string type. -/
abbrev MatchOperator := String

/-- Modelled from the spec: the operator constants of package `v1alpha1` are not
in `src/`; section 3 names the nine operators.  Go rejects duplicate constant
cases in a `switch`, so the nine constants are pairwise distinct. -/
def MatchOperatorOpIn : MatchOperator := "In"

/-- Modelled from the spec: operator constant Equal. -/
def MatchOperatorOpEqual : MatchOperator := "Equal"

/-- Modelled from the spec: operator constant DoubleEqual. -/
def MatchOperatorOpDoubleEqual : MatchOperator := "DoubleEqual"

/-- Modelled from the spec: operator constant NotIn. -/
def MatchOperatorOpNotIn : MatchOperator := "NotIn"

/-- Modelled from the spec: operator constant NotEqual. -/
def MatchOperatorOpNotEqual : MatchOperator := "NotEqual"

/-- Modelled from the spec: operator constant Exists. -/
def MatchOperatorOpExists : MatchOperator := "Exists"

/-- Modelled from the spec: operator constant DoesNotExist. -/
def MatchOperatorOpDoesNotExist : MatchOperator := "DoesNotExist"

/-- Modelled from the spec: operator constant GreaterThan. -/
def MatchOperatorOpGt : MatchOperator := "GreaterThan"

/-- Modelled from the spec: operator constant LessThan. -/
def MatchOperatorOpLt : MatchOperator := "LessThan"

/-- Modelled from the spec: `genev1alpha1.MatchRule` is declared outside `src/`;
section 3 gives its attributes `Key`, `Operator`, `Values`. -/
structure MatchRule where
  Key : String
  Operator : MatchOperator
  Values : Slice String
  deriving DecidableEq, Repr

/-- The context `kv map[string]string` of `RuleSatisfied`. -/
abbrev KV := GoMap String

/-- `batch.JobConditionType` of `k8s.io/api/batch/v1`, a Go string type. -/
abbrev JobConditionType := String

/-- `batch.JobComplete`. -/
def JobComplete : JobConditionType := "Complete"

/-- `batch.JobFailed`. -/
def JobFailed : JobConditionType := "Failed"

/-- `v1.ConditionStatus` of `k8s.io/api/core/v1`, a Go string type. -/
abbrev ConditionStatus := String

/-- `v1.ConditionTrue`. -/
def ConditionTrue : ConditionStatus := "True"

/-- `v1.ConditionFalse`. -/
def ConditionFalse : ConditionStatus := "False"

/-- `v1.ConditionUnknown`. -/
def ConditionUnknown : ConditionStatus := "Unknown"

/-- `batch.JobCondition`, restricted to the fields `util.go` reads. -/
structure JobCondition where
  -- Go field `Type`; that name is reserved in Lean
  Type_ : JobConditionType
  Status : ConditionStatus
  Message : String
  deriving DecidableEq, Repr

/-- `batch.Job`, restricted to `Status.Conditions`. -/
structure Job where
  Conditions : Slice JobCondition

/-- Modelled from the spec: `graph.Vertex` is declared outside `src/`; by section 3 a
vertex carries a reference to its backing job.  `util.go` reads only the name of that
job, `child.Data.Job.Name`; a child is a non-nil vertex that has a backing job. -/
structure Vertex where
  JobName : String

/-! ## `strconv.ParseInt(s, 10, 64)` (Go standard library, `strconv/atoi.go`) -/

/-- The two `strconv` errors `ErrSyntax` and `ErrRange`. -/
inductive NumError where
  | ErrSyntax
  | ErrRange
  deriving DecidableEq, Repr

/-- `maxUint64 = 1<<64 - 1`. -/
def maxUint64 : Nat := 2 ^ 64 - 1

/-- The overflow cutoff of `ParseUint` for base 10: `maxUint64/10 + 1`. -/
def cutoff10 : Nat := maxUint64 / 10 + 1

/-- `lower(c) = c | ('x' - 'X')` of `strconv`, on the code of a character. -/
def lower (c : Nat) : Nat := c ||| 32

/-- The digit `switch` in the loop of `ParseUint` with `base0 = false`: the value
of the character as a digit in some base up to 36, or `none` for the `default`
branch.  Go walks the bytes of the string; a character outside ASCII is encoded
by bytes of value 128 or more, each of which takes the `default` branch, as the
character does here. -/
def digitOf (c : Char) : Option Nat :=
  if 48 ≤ c.toNat ∧ c.toNat ≤ 57 then some (c.toNat - 48)
  else if 97 ≤ lower c.toNat ∧ lower c.toNat ≤ 122 then
    some (lower c.toNat - 97 + 10)
  else none

/-- The loop of `strconv.ParseUint(s, 10, 64)` over the remaining characters, `n`
the `uint64` accumulator. -/
def parseUintLoop : List Char → Nat → Nat × Option NumError
  | [], n => (n, none)
  | c :: cs, n =>
    match digitOf c with
    | none => (0, some NumError.ErrSyntax)
    | some d =>
      if d ≥ 10 then (0, some NumError.ErrSyntax)
      else if n ≥ cutoff10 then (maxUint64, some NumError.ErrRange)
      else
        let n10 := (n * 10) % 2 ^ 64
        let n1 := (n10 + d) % 2 ^ 64
        if n1 < n10 ∨ n1 > maxUint64 then (maxUint64, some NumError.ErrRange)
        else parseUintLoop cs n1

/-- `strconv.ParseUint(s, 10, 64)` on the characters of `s`: value and error. -/
def ParseUint (s : List Char) : Nat × Option NumError :=
  if s = [] then (0, some NumError.ErrSyntax) else parseUintLoop s 0

/-- The conversion `int64(x)` of an integer, wrapping modulo `2^64`. -/
def toInt64 (x : Int) : Int := (x + 2 ^ 63) % 2 ^ 64 - 2 ^ 63

/-- The second half of `strconv.ParseInt(s, 10, 64)`, "convert unsigned and check
range": `neg` records a leading minus sign and `rest` is the string after the
sign. -/
def parseIntSigned (neg : Bool) (rest : List Char) : Int × Option NumError :=
  match ParseUint rest with
  | (_, some NumError.ErrSyntax) => (0, some NumError.ErrSyntax)
  | (un, _) =>
    let cutoff : Nat := 2 ^ 63
    if !neg && decide (un ≥ cutoff) then (toInt64 (cutoff - 1), some NumError.ErrRange)
    else if neg && decide (un > cutoff) then (toInt64 (-toInt64 cutoff), some NumError.ErrRange)
    else
      let n := toInt64 un
      (if neg then toInt64 (-n) else n, none)

/-- `strconv.ParseInt(s, 10, 64)`: value and error (`none` is a nil error). -/
def ParseInt (s : String) : Int × Option NumError :=
  match s.data with
  | [] => (0, some NumError.ErrSyntax)
  | c :: cs =>
    if c = '+' then parseIntSigned false cs
    else if c = '-' then parseIntSigned true cs
    else parseIntSigned false (c :: cs)

/-! ## `util.go` -/

/-- The loop of `GetJobCondition` over the remaining conditions. -/
def getJobConditionLoop : List JobCondition → JobConditionType × String
  | [] => ("", "")
  | c :: cs =>
    if c.Type_ = JobComplete ∧ c.Status = ConditionTrue then (JobComplete, c.Message)
    else if c.Type_ = JobFailed ∧ c.Status = ConditionTrue then (JobFailed, c.Message)
    else getJobConditionLoop cs

/-- `GetJobCondition` (util.go:35). -/
def GetJobCondition (j : Job) : JobConditionType × String :=
  getJobConditionLoop j.Conditions.elems

/-- The loop of `IsJobFinished` over the remaining conditions. -/
def isJobFinishedLoop : List JobCondition → Bool
  | [] => false
  | c :: cs =>
    if (c.Type_ = JobComplete ∨ c.Type_ = JobFailed) ∧ c.Status = ConditionTrue then true
    else isJobFinishedLoop cs

/-- `IsJobFinished` (util.go:47). -/
def IsJobFinished (j : Job) : Bool :=
  isJobFinishedLoop j.Conditions.elems

/-- `IsExecutionCompleted` (util.go:64). -/
def IsExecutionCompleted (exec : Execution) : Bool :=
  if exec.Status.Phase = VertexSucceeded ∨ exec.Status.Phase = VertexError
      ∨ exec.Status.Phase = VertexFailed then true
  else false

/-- `VertexId` (util.go:99). -/
def VertexId (vertexName : String) : String := vertexName

/-- The loop of `InitializeVertexStatus` appending to `childStr`. -/
def childLoop : List Vertex → List String → List String
  | [], childStr => childStr
  | child :: rest, childStr => childLoop rest (childStr ++ [VertexId child.JobName])

/-- `InitializeVertexStatus` (util.go:73); `now` is the reading of `metav1.Now()`. -/
def InitializeVertexStatus (now : Time) (vertexName : String) (phase : VertexPhase)
    (message : String) (children : Slice Vertex) : VertexStatus :=
  let childStr := childLoop children.elems []
  let vertexId := VertexId vertexName
  { ID := vertexId
    Name := vertexName
    Phase := phase
    Message := message
    StartedAt := now
    FinishedAt := 0
    Children := some childStr
    Type_ := JobVertexType }

/-- `MarkExecutionPhase` (util.go:122); `nowStart` and `nowFinish` are the readings
of the first and of the second `time.Now()` in the body. -/
def MarkExecutionPhase (nowStart nowFinish : Time) (exec : Execution) (phase : VertexPhase)
    (message : String) : Execution :=
  let exec : Execution :=
    if exec.Status.Phase ≠ phase then { exec with Status := { exec.Status with Phase := phase } }
    else exec
  let exec : Execution :=
    if exec.Status.StartedAt.IsZero then
      { exec with Status := { exec.Status with StartedAt := nowStart } }
    else exec
  let exec : Execution :=
    if exec.Status.Message ≠ message then
      { exec with Status := { exec.Status with Message := message } }
    else exec
  let exec : Execution :=
    if IsExecutionCompleted exec then
      if exec.Status.FinishedAt.IsZero then
        { exec with Status := { exec.Status with FinishedAt := nowFinish } }
      else exec
    else exec
  let exec : Execution :=
    if exec.Status.Vertices.isNone then
      { exec with Status := { exec.Status with Vertices := GoMap.make } }
    else exec
  exec

/-- `MarkExecutionSuccess` (util.go:106). -/
def MarkExecutionSuccess (nowStart nowFinish : Time) (exec : Execution) (message : String) :
    Execution :=
  MarkExecutionPhase nowStart nowFinish exec VertexSucceeded message

/-- `MarkExecutionFailed` (util.go:110). -/
def MarkExecutionFailed (nowStart nowFinish : Time) (exec : Execution) (message : String) :
    Execution :=
  MarkExecutionPhase nowStart nowFinish exec VertexFailed message

/-- `MarkExecutionError` (util.go:114); `err` is the text `err.Error()`. -/
def MarkExecutionError (nowStart nowFinish : Time) (exec : Execution) (err : String) :
    Execution :=
  MarkExecutionPhase nowStart nowFinish exec VertexError err

/-- `MarkExecutionRunning` (util.go:118). -/
def MarkExecutionRunning (nowStart nowFinish : Time) (exec : Execution) (message : String) :
    Execution :=
  MarkExecutionPhase nowStart nowFinish exec VertexRunning message

/-- `GetVertexStatus` (util.go:161): `none` is the nil pointer, `some s` a pointer
to a copy `s` of the map entry. -/
def GetVertexStatus (exec : Execution) (vertexName : String) : Option VertexStatus :=
  let vertexId := VertexId vertexName
  match exec.Status.Vertices.lookup vertexId with
  | none => none
  | some vertexStatus => some vertexStatus

/-- How a call ended: it returned, it reached an explicit `panic(msg)`, or the
run time panicked on an assignment to an entry of a nil map. -/
inductive Outcome where
  | returned
  | panicked (msg : String)
  | nilMapAssign
  deriving DecidableEq, Repr

/-- The call did not return. -/
def Outcome.failed : Outcome → Bool
  | Outcome.returned => false
  | Outcome.panicked _ => true
  | Outcome.nilMapAssign => true

/-- `MarkVertexPhase` (util.go:171); `now` is the reading of `metav1.Now()`.  The
result is how the call ended and the execution as the call left it. -/
def MarkVertexPhase (now : Time) (exec : Execution) (vertexName : String)
    (phase : VertexPhase) (message : String) : Outcome × Execution :=
  match GetVertexStatus exec vertexName with
  | none => (Outcome.panicked ("can not get status fot vertex " ++ vertexName), exec)
  | some vertexStatus =>
    let vertexStatus : VertexStatus :=
      if vertexStatus.Phase ≠ phase then { vertexStatus with Phase := phase } else vertexStatus
    let vertexStatus : VertexStatus :=
      if vertexStatus.Message ≠ message then { vertexStatus with Message := message }
      else vertexStatus
    let vertexStatus : VertexStatus :=
      if vertexStatus.Phase = VertexSucceeded ∧ vertexStatus.FinishedAt.IsZero then
        { vertexStatus with FinishedAt := now }
      else vertexStatus
    match exec.Status.Vertices.assign vertexStatus.ID vertexStatus with
    | none => (Outcome.nilMapAssign, exec)
    | some vertices =>
      (Outcome.returned, { exec with Status := { exec.Status with Vertices := vertices } })

/-- `MarkVertexSuccess` (util.go:149). -/
def MarkVertexSuccess (now : Time) (exec : Execution) (vertexName : String)
    (message : String) : Outcome × Execution :=
  MarkVertexPhase now exec vertexName VertexSucceeded message

/-- `MarkVertexFailed` (util.go:153). -/
def MarkVertexFailed (now : Time) (exec : Execution) (vertexName : String)
    (message : String) : Outcome × Execution :=
  MarkVertexPhase now exec vertexName VertexFailed message

/-- `MarkVertexError` (util.go:157); `err` is the text `err.Error()`. -/
def MarkVertexError (now : Time) (exec : Execution) (vertexName : String)
    (err : String) : Outcome × Execution :=
  MarkVertexPhase now exec vertexName VertexError err

/-- The loop of `hasValue` over the remaining values. -/
def hasValueLoop : List String → String → Bool
  | [], _ => false
  | v :: vs, value => if v = value then true else hasValueLoop vs value

/-- `hasValue` (util.go:257). -/
def hasValue (r : MatchRule) (value : String) : Bool :=
  hasValueLoop r.Values.elems value

/-- The loop `for i := range r.Values` of the `Gt`/`Lt` case of `RuleSatisfied`:
`none` when a parse fails (the function returns false there), otherwise the last
value assigned to `rValue`. -/
def rValueLoop : List String → Int → Option Int
  | [], rValue => some rValue
  | v :: vs, _ =>
    match ParseInt v with
    | (rValue, none) => rValueLoop vs rValue
    | (_, some _) => none

/-- `RuleSatisfied` (util.go:205). -/
def RuleSatisfied (r : MatchRule) (kv : KV) : Bool :=
  if r.Operator = MatchOperatorOpIn ∨ r.Operator = MatchOperatorOpEqual
      ∨ r.Operator = MatchOperatorOpDoubleEqual then
    match kv.lookup r.Key with
    | none => false
    | some val => hasValue r val
  else if r.Operator = MatchOperatorOpNotIn ∨ r.Operator = MatchOperatorOpNotEqual then
    match kv.lookup r.Key with
    | none => true
    | some val => !hasValue r val
  else if r.Operator = MatchOperatorOpExists then
    (kv.lookup r.Key).isSome
  else if r.Operator = MatchOperatorOpDoesNotExist then
    !(kv.lookup r.Key).isSome
  else if r.Operator = MatchOperatorOpGt ∨ r.Operator = MatchOperatorOpLt then
    match kv.lookup r.Key with
    | none => false
    | some val =>
      match ParseInt val with
      | (_, some _) => false
      | (lsValue, none) =>
        if r.Values.elems.length ≠ 1 then false
        else
          match rValueLoop r.Values.elems 0 with
          | none => false
          | some rValue =>
            (r.Operator = MatchOperatorOpGt ∧ lsValue > rValue)
              ∨ (r.Operator = MatchOperatorOpLt ∧ lsValue < rValue)
  else false

/-! ## Definitions used to state the properties -/

/-- The context with the single entry `k ↦ v`. -/
def kv1 (k v : String) : KV := some (fun j => if j = k then some v else none)

/-- The non-nil context without entries. -/
def kvEmpty : KV := GoMap.make

/-- A decimal digit character, `'0'` to `'9'`. -/
def isDecDigit (c : Char) : Prop := 48 ≤ c.toNat ∧ c.toNat ≤ 57

instance (c : Char) : Decidable (isDecDigit c) := by
  unfold isDecDigit; infer_instance

/-- The number written by the decimal digits `cs` after the digits already read
have given `n`. -/
def decValue : List Char → Nat → Nat
  | [], n => n
  | c :: cs, n => decValue cs (n * 10 + (c.toNat - 48))

/-- The spec's "parses as a base-10 signed 64-bit integer": the string is an
optional sign `+` or `-` followed by one or more decimal digits, it denotes `a`,
and `a` lies in the range of `int64`. -/
def ParsesAsInt64 (s : String) (a : Int) : Prop :=
  ∃ ds : List Char, ds ≠ [] ∧ (∀ c ∈ ds, isDecDigit c)
    ∧ ((s.data = ds ∧ a = (decValue ds 0 : Int))
      ∨ (s.data = '+' :: ds ∧ a = (decValue ds 0 : Int))
      ∨ (s.data = '-' :: ds ∧ a = -(decValue ds 0 : Int)))
    ∧ -2 ^ 63 ≤ a ∧ a < 2 ^ 63

/-- The status that `MarkVertexPhase` writes back for an entry `vs`: the requested
phase and message, and `FinishedAt` stamped with `now` when the requested phase is
Succeeded and `FinishedAt` was zero. -/
def markedStatus (now : Time) (vs : VertexStatus) (phase : VertexPhase) (message : String) :
    VertexStatus :=
  { vs with
    Phase := phase
    Message := message
    FinishedAt := if phase = VertexSucceeded ∧ vs.FinishedAt = 0 then now else vs.FinishedAt }

/-- A status record with identifier `id`, name `name` and the given `FinishedAt`:
phase Pending, empty message, started at instant 1, no children. -/
def sampleStatus (id name : String) (finishedAt : Time) : VertexStatus :=
  ⟨id, name, VertexPending, "", 1, finishedAt, some [], JobVertexType⟩

/-- A running execution whose only entry, under key "a", has `ID` "a" and a zero
`FinishedAt`. -/
def exKeyed : Execution :=
  ⟨⟨VertexRunning, "", 1, 0,
    some (fun j => if j = "a" then some (sampleStatus "a" "a" 0) else none)⟩⟩

/-- A running execution whose only entry, under key "a", has `ID` "b" and a zero
`FinishedAt`: the key is not the identifier of the entry. -/
def exMisKeyed : Execution :=
  ⟨⟨VertexRunning, "", 1, 0,
    some (fun j => if j = "a" then some (sampleStatus "b" "a" 0) else none)⟩⟩

/-- A running execution with two entries: under "a" a status with `ID` "b" finished
at instant 7, under "b" a status with `ID` "b" finished at instant 5. -/
def exTwoEntries : Execution :=
  ⟨⟨VertexRunning, "", 1, 0,
    some (fun j =>
      if j = "a" then some (sampleStatus "b" "a" 7)
      else if j = "b" then some (sampleStatus "b" "b" 5)
      else none)⟩⟩

/-- A succeeded execution finished at instant 4 whose only entry, under key "a",
has `ID` "a" and finished at instant 3. -/
def exFinished : Execution :=
  ⟨⟨VertexSucceeded, "", 1, 4,
    some (fun j => if j = "a" then some (sampleStatus "a" "a" 3) else none)⟩⟩

/-- A succeeded execution finished at instant 4 whose only entry, under key "a",
has `ID` "a", phase Succeeded and finished at instant 3. -/
def exAllDone : Execution :=
  ⟨⟨VertexSucceeded, "", 1, 4,
    some (fun j =>
      if j = "a" then some ⟨"a", "a", VertexSucceeded, "", 1, 3, some [], JobVertexType⟩
      else none)⟩⟩

/-- A phase is terminal: Succeeded, Failed or Error. -/
def IsTerminal (p : VertexPhase) : Prop :=
  p = VertexSucceeded ∨ p = VertexFailed ∨ p = VertexError

instance (p : VertexPhase) : Decidable (IsTerminal p) := by
  unfold IsTerminal; infer_instance

/-- A condition that reports an outcome: type Complete or Failed with status True. -/
def isOutcome (c : JobCondition) : Bool :=
  decide ((c.Type_ = JobComplete ∨ c.Type_ = JobFailed) ∧ c.Status = ConditionTrue)

/-- A fresh execution: empty phase and message, zero timestamps, nil `Vertices`. -/
def exFresh : Execution := ⟨⟨"", "", 0, 0, none⟩⟩

/-! ## Sequences of calls -/

/-- One call of a phase-marking function, with its clock readings. -/
inductive Call where
  | markExecution (nowStart nowFinish : Time) (phase : VertexPhase) (message : String)
  | markVertex (now : Time) (vertexName : String) (phase : VertexPhase) (message : String)

/-- The execution after one call.  A panicking `MarkVertexPhase` leaves the
execution as it found it. -/
def Call.run (c : Call) (exec : Execution) : Execution :=
  match c with
  | Call.markExecution nowStart nowFinish phase message =>
    MarkExecutionPhase nowStart nowFinish exec phase message
  | Call.markVertex now vertexName phase message =>
    (MarkVertexPhase now exec vertexName phase message).2

/-- The execution after a sequence of calls, first call first. -/
def runCalls : List Call → Execution → Execution
  | [], exec => exec
  | c :: cs, exec => runCalls cs (c.run exec)

/-- Every key of the `Vertices` map holds a status whose `ID` is that key. -/
def WellKeyed (exec : Execution) : Prop :=
  ∀ k s, exec.Status.Vertices.lookup k = some s → s.ID = k

end Kubegene

/-! ## Match rules: set membership and existence operators -/

namespace Kubegene

theorem hasValueLoop_eq_true (vs : List String) (value : String) :
    hasValueLoop vs value = true ↔ value ∈ vs := by
  induction vs with
  | nil => simp [hasValueLoop]
  | cons v vs ih =>
    by_cases h : v = value
    · simp [hasValueLoop, h]
    · have h2 : ¬ value = v := fun e => h e.symm
      simp [hasValueLoop, h, h2, ih]

theorem hasValueLoop_eq_false (vs : List String) (value : String) :
    hasValueLoop vs value = false ↔ value ∉ vs := by
  rw [← hasValueLoop_eq_true]
  cases hasValueLoop vs value <;> simp

theorem hasValue_eq_true (r : MatchRule) (value : String) :
    hasValue r value = true ↔ value ∈ r.Values.elems := by
  simp [hasValue, hasValueLoop_eq_true]

theorem ruleSatisfied_in (key : String) (values : Slice String) (kv : KV) :
    RuleSatisfied ⟨key, MatchOperatorOpIn, values⟩ kv = true
      ↔ ∃ val, kv.lookup key = some val ∧ val ∈ values.elems := by
  cases h : kv.lookup key <;>
    simp [RuleSatisfied, MatchOperatorOpIn, h, hasValue_eq_true]

theorem ruleSatisfied_equal (key : String) (values : Slice String) (kv : KV) :
    RuleSatisfied ⟨key, MatchOperatorOpEqual, values⟩ kv
      = RuleSatisfied ⟨key, MatchOperatorOpIn, values⟩ kv := by
  cases h : kv.lookup key <;>
    simp [RuleSatisfied, MatchOperatorOpIn, MatchOperatorOpEqual, h, hasValue]

theorem ruleSatisfied_doubleEqual (key : String) (values : Slice String) (kv : KV) :
    RuleSatisfied ⟨key, MatchOperatorOpDoubleEqual, values⟩ kv
      = RuleSatisfied ⟨key, MatchOperatorOpIn, values⟩ kv := by
  cases h : kv.lookup key <;>
    simp [RuleSatisfied, MatchOperatorOpIn, MatchOperatorOpDoubleEqual, h, hasValue]

/-- C1: with operator In, Equal or DoubleEqual, `RuleSatisfied` is true exactly when
the context has the rule's key and the value stored under it is, as a string, an
element of `Values`; the three operators agree on every input; and the rule
In / "env" / ["prod","stage"] is true on the context env=prod, false on env=dev and
false on the empty context. -/
theorem C1_membership_operators :
    (∀ (key : String) (values : Slice String) (kv : KV),
      (RuleSatisfied ⟨key, MatchOperatorOpIn, values⟩ kv = true
        ↔ ∃ val, kv.lookup key = some val ∧ ∃ v ∈ values.elems, v = val)
      ∧ (RuleSatisfied ⟨key, MatchOperatorOpEqual, values⟩ kv = true
        ↔ ∃ val, kv.lookup key = some val ∧ ∃ v ∈ values.elems, v = val)
      ∧ (RuleSatisfied ⟨key, MatchOperatorOpDoubleEqual, values⟩ kv = true
        ↔ ∃ val, kv.lookup key = some val ∧ ∃ v ∈ values.elems, v = val)
      ∧ RuleSatisfied ⟨key, MatchOperatorOpEqual, values⟩ kv
          = RuleSatisfied ⟨key, MatchOperatorOpIn, values⟩ kv
      ∧ RuleSatisfied ⟨key, MatchOperatorOpDoubleEqual, values⟩ kv
          = RuleSatisfied ⟨key, MatchOperatorOpIn, values⟩ kv)
    ∧ RuleSatisfied ⟨"env", MatchOperatorOpIn, some ["prod", "stage"]⟩ (kv1 "env" "prod") = true
    ∧ RuleSatisfied ⟨"env", MatchOperatorOpIn, some ["prod", "stage"]⟩ (kv1 "env" "dev") = false
    ∧ RuleSatisfied ⟨"env", MatchOperatorOpIn, some ["prod", "stage"]⟩ kvEmpty = false := by
  refine ⟨?_, by decide, by decide, by decide⟩
  intro key values kv
  have hin : RuleSatisfied ⟨key, MatchOperatorOpIn, values⟩ kv = true
      ↔ ∃ val, kv.lookup key = some val ∧ ∃ v ∈ values.elems, v = val := by
    simpa using ruleSatisfied_in key values kv
  refine ⟨hin, ?_, ?_, ruleSatisfied_equal key values kv,
    ruleSatisfied_doubleEqual key values kv⟩
  · rw [ruleSatisfied_equal]; exact hin
  · rw [ruleSatisfied_doubleEqual]; exact hin

theorem ruleSatisfied_notIn (key : String) (values : Slice String) (kv : KV) :
    RuleSatisfied ⟨key, MatchOperatorOpNotIn, values⟩ kv = true
      ↔ kv.lookup key = none ∨ ∃ val, kv.lookup key = some val ∧ val ∉ values.elems := by
  cases h : kv.lookup key <;>
    simp [RuleSatisfied, MatchOperatorOpIn, MatchOperatorOpEqual, MatchOperatorOpDoubleEqual,
      MatchOperatorOpNotIn, h, hasValue, hasValueLoop_eq_false]

theorem ruleSatisfied_notEqual (key : String) (values : Slice String) (kv : KV) :
    RuleSatisfied ⟨key, MatchOperatorOpNotEqual, values⟩ kv
      = RuleSatisfied ⟨key, MatchOperatorOpNotIn, values⟩ kv := by
  cases h : kv.lookup key <;>
    simp [RuleSatisfied, MatchOperatorOpIn, MatchOperatorOpEqual, MatchOperatorOpDoubleEqual,
      MatchOperatorOpNotIn, MatchOperatorOpNotEqual, h, hasValue]

/-- C2: with operator NotIn or NotEqual, `RuleSatisfied` is true exactly when the
context does not have the rule's key, or has it with a value that equals no element
of `Values`; and the rule NotIn / "env" / ["prod"] is true on the empty context,
false on env=prod and true on env=dev. -/
theorem C2_negated_membership_operators :
    (∀ (key : String) (values : Slice String) (kv : KV),
      (RuleSatisfied ⟨key, MatchOperatorOpNotIn, values⟩ kv = true
        ↔ kv.lookup key = none
          ∨ ∃ val, kv.lookup key = some val ∧ ∀ v ∈ values.elems, v ≠ val)
      ∧ (RuleSatisfied ⟨key, MatchOperatorOpNotEqual, values⟩ kv = true
        ↔ kv.lookup key = none
          ∨ ∃ val, kv.lookup key = some val ∧ ∀ v ∈ values.elems, v ≠ val))
    ∧ RuleSatisfied ⟨"env", MatchOperatorOpNotIn, some ["prod"]⟩ kvEmpty = true
    ∧ RuleSatisfied ⟨"env", MatchOperatorOpNotIn, some ["prod"]⟩ (kv1 "env" "prod") = false
    ∧ RuleSatisfied ⟨"env", MatchOperatorOpNotIn, some ["prod"]⟩ (kv1 "env" "dev") = true := by
  refine ⟨?_, by decide, by decide, by decide⟩
  intro key values kv
  have hmem : ∀ val : String, val ∉ values.elems ↔ ∀ v ∈ values.elems, v ≠ val := by
    intro val
    constructor
    · intro hn v hv e
      exact hn (e ▸ hv)
    · intro hall hv
      exact hall val hv rfl
  have hni : RuleSatisfied ⟨key, MatchOperatorOpNotIn, values⟩ kv = true
      ↔ kv.lookup key = none
        ∨ ∃ val, kv.lookup key = some val ∧ ∀ v ∈ values.elems, v ≠ val := by
    rw [ruleSatisfied_notIn]
    simp only [hmem]
  refine ⟨hni, ?_⟩
  rw [ruleSatisfied_notEqual]; exact hni

/-- C4: with operator Exists, `RuleSatisfied` is true exactly when the context has
the rule's key, whatever value is stored (the empty string included) and whatever
`Values` is; with DoesNotExist it is true exactly when the context lacks the key;
and the rule Exists / "region" is true on the context region="" and false on the
empty context. -/
theorem C4_existence_operators :
    (∀ (key : String) (values : Slice String) (kv : KV),
      (RuleSatisfied ⟨key, MatchOperatorOpExists, values⟩ kv = true
        ↔ ∃ val, kv.lookup key = some val)
      ∧ (RuleSatisfied ⟨key, MatchOperatorOpDoesNotExist, values⟩ kv = true
        ↔ kv.lookup key = none))
    ∧ (∀ values : Slice String,
      RuleSatisfied ⟨"region", MatchOperatorOpExists, values⟩ (kv1 "region" "") = true
      ∧ RuleSatisfied ⟨"region", MatchOperatorOpExists, values⟩ kvEmpty = false) := by
  have key_fact : ∀ (key : String) (values : Slice String) (kv : KV),
      (RuleSatisfied ⟨key, MatchOperatorOpExists, values⟩ kv = true
        ↔ ∃ val, kv.lookup key = some val)
      ∧ (RuleSatisfied ⟨key, MatchOperatorOpDoesNotExist, values⟩ kv = true
        ↔ kv.lookup key = none) := by
    intro key values kv
    cases h : kv.lookup key <;>
      simp [RuleSatisfied, MatchOperatorOpIn, MatchOperatorOpEqual, MatchOperatorOpDoubleEqual,
        MatchOperatorOpNotIn, MatchOperatorOpNotEqual, MatchOperatorOpExists,
        MatchOperatorOpDoesNotExist, h]
  refine ⟨key_fact, ?_⟩
  intro values
  constructor
  · exact ((key_fact "region" values (kv1 "region" "")).1).2 ⟨"", by decide⟩
  · have h := (key_fact "region" values kvEmpty).1
    cases hb : RuleSatisfied ⟨"region", MatchOperatorOpExists, values⟩ kvEmpty
    · rfl
    · obtain ⟨val, hval⟩ := h.1 hb
      exact absurd hval (by simp [kvEmpty, GoMap.make, GoMap.lookup])


theorem decValue_ge (cs : List Char) (n : Nat) : n ≤ decValue cs n := by
  induction cs generalizing n with
  | nil => simp [decValue]
  | cons c cs ih =>
    have := ih (n * 10 + (c.toNat - 48))
    simp only [decValue]
    omega

theorem digitOf_digit (c : Char) (h : isDecDigit c) : digitOf c = some (c.toNat - 48) := by
  unfold isDecDigit at h
  simp [digitOf, h]

theorem digitOf_nondigit (c : Char) (h : ¬ isDecDigit c) :
    digitOf c = none ∨ ∃ d, digitOf c = some d ∧ 10 ≤ d := by
  unfold isDecDigit at h
  unfold digitOf
  rw [if_neg h]
  by_cases h2 : 97 ≤ lower c.toNat ∧ lower c.toNat ≤ 122
  · rw [if_pos h2]; right; exact ⟨_, rfl, by omega⟩
  · rw [if_neg h2]; left; rfl

theorem parseUintLoop_spec (cs : List Char) (n : Nat) (hn : n < 2 ^ 64) :
    ((∀ c ∈ cs, isDecDigit c) ∧ decValue cs n < 2 ^ 64
        → parseUintLoop cs n = (decValue cs n, none))
    ∧ (¬ ((∀ c ∈ cs, isDecDigit c) ∧ decValue cs n < 2 ^ 64)
        → parseUintLoop cs n = (0, some NumError.ErrSyntax)
          ∨ parseUintLoop cs n = (maxUint64, some NumError.ErrRange)) := by
  induction cs generalizing n with
  | nil =>
    constructor
    · intro _; simp [parseUintLoop, decValue]
    · intro h; exact absurd ⟨by simp, by simpa [decValue] using hn⟩ h
  | cons c cs ih =>
    by_cases hc : isDecDigit c
    · have hd := digitOf_digit c hc
      have hlt : c.toNat - 48 < 10 := by unfold isDecDigit at hc; omega
      by_cases hcut : n ≥ cutoff10
      · have hbig : 2 ^ 64 ≤ decValue (c :: cs) n := by
          have := decValue_ge cs (n * 10 + (c.toNat - 48))
          simp only [decValue]
          simp only [cutoff10, maxUint64] at hcut
          omega
        constructor
        · intro h; omega
        · intro _; right
          simp [parseUintLoop, hd, hcut]
          omega
      · have hn10 : n * 10 < 2 ^ 64 := by
          simp only [cutoff10, maxUint64] at hcut; omega
        by_cases hov : n * 10 + (c.toNat - 48) < 2 ^ 64
        · have ih2 := ih (n * 10 + (c.toNat - 48)) hov
          have hstep : parseUintLoop (c :: cs) n
              = parseUintLoop cs (n * 10 + (c.toNat - 48)) := by
            rw [parseUintLoop]
            simp only [hd]
            rw [if_neg (by omega), if_neg hcut]
            simp only [Nat.mod_eq_of_lt hn10, Nat.mod_eq_of_lt hov]
            rw [if_neg]
            simp only [maxUint64]; omega
          rw [hstep]
          simp only [decValue, List.mem_cons, forall_eq_or_imp, hc, true_and]
          exact ih2
        · have hbig : 2 ^ 64 ≤ decValue (c :: cs) n := by
            have := decValue_ge cs (n * 10 + (c.toNat - 48))
            simp only [decValue]
            omega
          constructor
          · intro h; omega
          · intro _; right
            rw [parseUintLoop]
            simp only [hd]
            rw [if_neg (by omega), if_neg hcut]
            simp only [Nat.mod_eq_of_lt hn10]
            rw [if_pos]
            left
            have : (n * 10 + (c.toNat - 48)) % 2 ^ 64 = n * 10 + (c.toNat - 48) - 2 ^ 64 := by
              rw [Nat.mod_eq_sub_mod (by omega)]
              exact Nat.mod_eq_of_lt (by omega)
            omega
    · constructor
      · intro h; exact absurd (h.1 c (by simp)) hc
      · intro _; left
        rcases digitOf_nondigit c hc with h | ⟨d, h, hd⟩
        · simp [parseUintLoop, h]
        · simp [parseUintLoop, h, hd]



theorem ParseUint_good (cs : List Char)
    (h : cs ≠ [] ∧ (∀ c ∈ cs, isDecDigit c) ∧ decValue cs 0 < 2 ^ 64) :
    ParseUint cs = (decValue cs 0, none) := by
  unfold ParseUint
  rw [if_neg h.1]
  exact (parseUintLoop_spec cs 0 (by norm_num)).1 h.2

theorem ParseUint_bad (cs : List Char)
    (h : ¬ (cs ≠ [] ∧ (∀ c ∈ cs, isDecDigit c) ∧ decValue cs 0 < 2 ^ 64)) :
    ParseUint cs = (0, some NumError.ErrSyntax)
      ∨ ParseUint cs = (maxUint64, some NumError.ErrRange) := by
  unfold ParseUint
  by_cases he : cs = []
  · left; rw [if_pos he]
  · rw [if_neg he]
    exact (parseUintLoop_spec cs 0 (by norm_num)).2 (fun hg => h ⟨he, hg⟩)

theorem parseIntSigned_spec (neg : Bool) (rest : List Char) (a : Int) :
    parseIntSigned neg rest = (a, none)
      ↔ rest ≠ [] ∧ (∀ c ∈ rest, isDecDigit c)
        ∧ a = (if neg then -(decValue rest 0 : Int) else (decValue rest 0 : Int))
        ∧ -2 ^ 63 ≤ a ∧ a < 2 ^ 63 := by
  by_cases hg : rest ≠ [] ∧ (∀ c ∈ rest, isDecDigit c) ∧ decValue rest 0 < 2 ^ 64
  · have hp := ParseUint_good rest hg
    obtain ⟨h1, h2, h3⟩ := hg
    generalize decValue rest 0 = v at *
    unfold parseIntSigned
    rw [hp]
    have e1 : ∀ x : Int, 0 ≤ x → x < 2 ^ 63 → toInt64 x = x := by
      intro x hx0 hx1; unfold toInt64; omega
    cases neg
    · simp only [Bool.not_false, Bool.true_and, Bool.false_and, decide_eq_true_eq,
        Bool.false_eq_true, if_false]
      split_ifs with hv
      · simp only [Prod.mk.injEq, reduceCtorEq, and_false, false_iff]
        rintro ⟨-, -, ha, -, hlt⟩
        omega
      · rw [e1 v (by omega) (by omega)]
        simp only [Prod.mk.injEq, and_true]
        constructor
        · intro ha; subst ha; exact ⟨h1, h2, rfl, by omega, by omega⟩
        · rintro ⟨-, -, ha, -, -⟩; exact ha.symm
    · simp only [Bool.not_true, Bool.true_and, Bool.false_and, decide_eq_true_eq,
        Bool.false_eq_true, if_false, if_true]
      split_ifs with hv
      · simp only [Prod.mk.injEq, reduceCtorEq, and_false, false_iff]
        rintro ⟨-, -, ha, hge, -⟩
        omega
      · have e2 : toInt64 (-toInt64 (v : Int)) = -(v : Int) := by
          unfold toInt64; omega
        rw [e2]
        simp only [Prod.mk.injEq, and_true]
        constructor
        · intro ha; subst ha; exact ⟨h1, h2, rfl, by omega, by omega⟩
        · rintro ⟨-, -, ha, -, -⟩; exact ha.symm
  · have hfalse : ¬ (rest ≠ [] ∧ (∀ c ∈ rest, isDecDigit c)
        ∧ a = (if neg then -(decValue rest 0 : Int) else (decValue rest 0 : Int))
        ∧ -2 ^ 63 ≤ a ∧ a < 2 ^ 63) := by
      rintro ⟨h1, h2, h3, h4, h5⟩
      apply hg
      refine ⟨h1, h2, ?_⟩
      cases neg <;> simp at h3 <;> omega
    constructor
    · intro h
      exfalso
      unfold parseIntSigned at h
      rcases ParseUint_bad rest hg with hp | hp
      · rw [hp] at h; simp at h
      · rw [hp] at h
        cases neg <;> simp [maxUint64] at h
    · intro h; exact absurd h hfalse


theorem ParseInt_spec (s : String) (a : Int) :
    ParseInt s = (a, none) ↔ ParsesAsInt64 s a := by
  unfold ParsesAsInt64
  cases hs : s.data with
  | nil =>
    simp only [ParseInt, hs]
    constructor
    · intro h; simp at h
    · rintro ⟨ds, hne, -, h | h | h, -⟩
      · exact absurd h.1.symm hne
      · simp at h
      · simp at h
  | cons c cs =>
    simp only [ParseInt, hs]
    by_cases hplus : c = '+'
    · subst hplus
      rw [if_pos rfl, parseIntSigned_spec]
      constructor
      · rintro ⟨h1, h2, h3, h4, h5⟩
        exact ⟨cs, h1, h2, Or.inr (Or.inl ⟨rfl, by simpa using h3⟩), h4, h5⟩
      · rintro ⟨ds, hne, hd, h | h | h, h4, h5⟩
        · exfalso
          have := hd '+' (by rw [← h.1]; simp)
          revert this; decide
        · obtain ⟨he, ha⟩ := h
          simp only [List.cons.injEq, true_and] at he
          subst he
          exact ⟨hne, hd, by simpa using ha, h4, h5⟩
        · exfalso
          have := h.1
          simp only [List.cons.injEq] at this
          exact absurd this.1 (by decide)
    · rw [if_neg hplus]
      by_cases hminus : c = '-'
      · subst hminus
        rw [if_pos rfl, parseIntSigned_spec]
        constructor
        · rintro ⟨h1, h2, h3, h4, h5⟩
          exact ⟨cs, h1, h2, Or.inr (Or.inr ⟨rfl, by simpa using h3⟩), h4, h5⟩
        · rintro ⟨ds, hne, hd, h | h | h, h4, h5⟩
          · exfalso
            have := hd '-' (by rw [← h.1]; simp)
            revert this; decide
          · exfalso
            have := h.1
            simp only [List.cons.injEq] at this
            exact absurd this.1 (by decide)
          · obtain ⟨he, ha⟩ := h
            simp only [List.cons.injEq, true_and] at he
            subst he
            exact ⟨hne, hd, by simpa using ha, h4, h5⟩
      · rw [if_neg hminus, parseIntSigned_spec]
        constructor
        · rintro ⟨h1, h2, h3, h4, h5⟩
          exact ⟨c :: cs, h1, h2, Or.inl ⟨rfl, by simpa using h3⟩, h4, h5⟩
        · rintro ⟨ds, hne, hd, h | h | h, h4, h5⟩
          · obtain ⟨he, ha⟩ := h
            subst he
            exact ⟨hne, hd, by simpa using ha, h4, h5⟩
          · exfalso
            have := h.1
            simp only [List.cons.injEq] at this
            exact hplus this.1
          · exfalso
            have := h.1
            simp only [List.cons.injEq] at this
            exact hminus this.1

theorem rValueLoop_single (v : String) (r0 : Int) (b : Int) :
    rValueLoop [v] r0 = some b ↔ ParseInt v = (b, none) := by
  unfold rValueLoop
  rcases hp : ParseInt v with ⟨x, e⟩
  cases e with
  | none => simp [rValueLoop]
  | some e => simp

/-- The presence, parse and arity checks of the `Gt`/`Lt` case of `RuleSatisfied`,
followed by a comparison `R` of the two parsed integers. -/
theorem ordering_core (key : String) (values : Slice String) (kv : KV)
    (R : Int → Int → Prop) [DecidableRel R] :
    (match kv.lookup key with
      | none => false
      | some val =>
        match ParseInt val with
        | (_, some _) => false
        | (lsValue, none) =>
          if values.elems.length ≠ 1 then false
          else
            match rValueLoop values.elems 0 with
            | none => false
            | some rValue => decide (R lsValue rValue)) = true
      ↔ ∃ val a v b, kv.lookup key = some val ∧ ParseInt val = (a, none)
          ∧ values.elems = [v] ∧ ParseInt v = (b, none) ∧ R a b := by
  cases hl : kv.lookup key with
  | none => simp
  | some val =>
    rcases hp : ParseInt val with ⟨a, e⟩
    cases e with
    | some e =>
      simp only [hp]
      constructor
      · intro h; exact absurd h (by simp)
      · rintro ⟨val2, a2, v, b, h1, h2, -⟩
        simp only [Option.some.injEq] at h1
        subst h1
        rw [hp] at h2
        simp at h2
    | none =>
      simp only [hp]
      cases hv : values.elems with
      | nil =>
        constructor
        · intro h; simp at h
        · rintro ⟨val2, a2, v, b, -, -, h3, -⟩
          simp at h3
      | cons v vs =>
        cases vs with
        | cons w ws =>
          constructor
          · intro h; simp at h
          · rintro ⟨val2, a2, v, b, -, -, h3, -⟩
            simp at h3
        | nil =>
          have hlen : ¬ ([v].length ≠ 1) := by simp
          rw [if_neg hlen]
          cases hr : rValueLoop [v] 0 with
          | none =>
            constructor
            · intro h; simp at h
            · rintro ⟨val2, a2, v2, b, -, -, h3, h4, -⟩
              simp only [List.cons.injEq, and_true] at h3
              subst h3
              have := (rValueLoop_single v 0 b).2 h4
              rw [hr] at this
              exact Option.noConfusion this
          | some b =>
            have hb := (rValueLoop_single v 0 b).1 hr
            constructor
            · intro h
              exact ⟨val, a, v, b, rfl, hp, rfl, hb, by simpa using h⟩
            · rintro ⟨val2, a2, v2, b2, h1, h2, h3, h4, h5⟩
              simp only [Option.some.injEq] at h1
              subst h1
              simp only [List.cons.injEq, and_true] at h3
              subst h3
              rw [hp] at h2
              rw [hb] at h4
              simp only [Prod.mk.injEq, and_true] at h2 h4
              subst h2
              subst h4
              simpa using h5

theorem ruleSatisfied_gt (key : String) (values : Slice String) (kv : KV) :
    RuleSatisfied ⟨key, MatchOperatorOpGt, values⟩ kv = true
      ↔ ∃ val a v b, kv.lookup key = some val ∧ ParseInt val = (a, none)
          ∧ values.elems = [v] ∧ ParseInt v = (b, none) ∧ a > b := by
  rw [← ordering_core key values kv (fun a b => a > b)]
  simp [RuleSatisfied, MatchOperatorOpIn, MatchOperatorOpEqual, MatchOperatorOpDoubleEqual,
    MatchOperatorOpNotIn, MatchOperatorOpNotEqual, MatchOperatorOpExists,
    MatchOperatorOpDoesNotExist, MatchOperatorOpGt, MatchOperatorOpLt]

theorem ruleSatisfied_lt (key : String) (values : Slice String) (kv : KV) :
    RuleSatisfied ⟨key, MatchOperatorOpLt, values⟩ kv = true
      ↔ ∃ val a v b, kv.lookup key = some val ∧ ParseInt val = (a, none)
          ∧ values.elems = [v] ∧ ParseInt v = (b, none) ∧ a < b := by
  rw [← ordering_core key values kv (fun a b => a < b)]
  simp [RuleSatisfied, MatchOperatorOpIn, MatchOperatorOpEqual, MatchOperatorOpDoubleEqual,
    MatchOperatorOpNotIn, MatchOperatorOpNotEqual, MatchOperatorOpExists,
    MatchOperatorOpDoesNotExist, MatchOperatorOpGt, MatchOperatorOpLt]

/-- C3: with operator GreaterThan (resp. LessThan), `RuleSatisfied` is true exactly
when the context has the rule's key, the value under it parses as a base-10 signed
64-bit integer `a`, `Values` has exactly one element, that element parses as such an
integer `b`, and `a > b` (resp. `a < b`); so a `Values` of length other than one
gives false; the rule GreaterThan / "n" / ["10"] is true on n=15, false on n=abc and
false on n=5; and LessThan / "n" / ["10","20"] is false on every context. -/
theorem C3_ordering_operators :
    (∀ (key : String) (values : Slice String) (kv : KV),
      (RuleSatisfied ⟨key, MatchOperatorOpGt, values⟩ kv = true
        ↔ ∃ val a v b, kv.lookup key = some val ∧ ParsesAsInt64 val a
            ∧ values.elems = [v] ∧ ParsesAsInt64 v b ∧ a > b)
      ∧ (RuleSatisfied ⟨key, MatchOperatorOpLt, values⟩ kv = true
        ↔ ∃ val a v b, kv.lookup key = some val ∧ ParsesAsInt64 val a
            ∧ values.elems = [v] ∧ ParsesAsInt64 v b ∧ a < b)
      ∧ (values.elems.length ≠ 1 →
          RuleSatisfied ⟨key, MatchOperatorOpGt, values⟩ kv = false
          ∧ RuleSatisfied ⟨key, MatchOperatorOpLt, values⟩ kv = false))
    ∧ RuleSatisfied ⟨"n", MatchOperatorOpGt, some ["10"]⟩ (kv1 "n" "15") = true
    ∧ RuleSatisfied ⟨"n", MatchOperatorOpGt, some ["10"]⟩ (kv1 "n" "abc") = false
    ∧ RuleSatisfied ⟨"n", MatchOperatorOpGt, some ["10"]⟩ (kv1 "n" "5") = false
    ∧ (∀ kv : KV, RuleSatisfied ⟨"n", MatchOperatorOpLt, some ["10", "20"]⟩ kv = false) := by
  have main : ∀ (key : String) (values : Slice String) (kv : KV),
      (RuleSatisfied ⟨key, MatchOperatorOpGt, values⟩ kv = true
        ↔ ∃ val a v b, kv.lookup key = some val ∧ ParsesAsInt64 val a
            ∧ values.elems = [v] ∧ ParsesAsInt64 v b ∧ a > b)
      ∧ (RuleSatisfied ⟨key, MatchOperatorOpLt, values⟩ kv = true
        ↔ ∃ val a v b, kv.lookup key = some val ∧ ParsesAsInt64 val a
            ∧ values.elems = [v] ∧ ParsesAsInt64 v b ∧ a < b) := by
    intro key values kv
    constructor
    · rw [ruleSatisfied_gt]; simp only [ParseInt_spec]
    · rw [ruleSatisfied_lt]; simp only [ParseInt_spec]
  have arity : ∀ (key : String) (values : Slice String) (kv : KV),
      values.elems.length ≠ 1 →
        RuleSatisfied ⟨key, MatchOperatorOpGt, values⟩ kv = false
        ∧ RuleSatisfied ⟨key, MatchOperatorOpLt, values⟩ kv = false := by
    intro key values kv hlen
    constructor
    · cases hb : RuleSatisfied ⟨key, MatchOperatorOpGt, values⟩ kv
      · rfl
      · obtain ⟨_, _, v, _, _, _, hv, _⟩ := ((main key values kv).1).1 hb
        exact absurd (by rw [hv]; rfl) hlen
    · cases hb : RuleSatisfied ⟨key, MatchOperatorOpLt, values⟩ kv
      · rfl
      · obtain ⟨_, _, v, _, _, _, hv, _⟩ := ((main key values kv).2).1 hb
        exact absurd (by rw [hv]; rfl) hlen
  refine ⟨fun key values kv => ⟨(main key values kv).1, (main key values kv).2,
    arity key values kv⟩, by decide, by decide, by decide, ?_⟩
  intro kv
  exact (arity "n" (some ["10", "20"]) kv (by decide)).2

/-! ## Execution phase transitions -/

/-- The five fields of the status that `MarkExecutionPhase` leaves behind. -/
theorem markExecutionPhase_status (nowStart nowFinish : Time) (exec : Execution)
    (phase : VertexPhase) (message : String) :
    (MarkExecutionPhase nowStart nowFinish exec phase message).Status.Phase = phase
    ∧ (MarkExecutionPhase nowStart nowFinish exec phase message).Status.Message = message
    ∧ (MarkExecutionPhase nowStart nowFinish exec phase message).Status.StartedAt
        = (if exec.Status.StartedAt ≠ 0 then exec.Status.StartedAt else nowStart)
    ∧ (MarkExecutionPhase nowStart nowFinish exec phase message).Status.FinishedAt
        = (if exec.Status.FinishedAt ≠ 0 then exec.Status.FinishedAt
          else if phase = VertexSucceeded ∨ phase = VertexFailed ∨ phase = VertexError
            then nowFinish
          else 0)
    ∧ (MarkExecutionPhase nowStart nowFinish exec phase message).Status.Vertices
        = (match exec.Status.Vertices with
          | some m => some m
          | none => some (fun _ => none)) := by
  obtain ⟨⟨p, m, sa, fa, v⟩⟩ := exec
  have hc : (phase = VertexSucceeded ∨ phase = VertexFailed ∨ phase = VertexError)
      ↔ (phase = VertexSucceeded ∨ phase = VertexError ∨ phase = VertexFailed) := by tauto
  simp only [hc]
  by_cases h1 : p = phase <;> by_cases h2 : sa = 0 <;> by_cases h3 : m = message <;>
    by_cases h4 : phase = VertexSucceeded ∨ phase = VertexError ∨ phase = VertexFailed <;>
    by_cases h5 : fa = 0 <;> cases v <;>
    simp [MarkExecutionPhase, IsExecutionCompleted, Time.IsZero, GoMap.make, h1, h2, h3, h4, h5]

theorem execution_ext (a b : Execution) (h1 : a.Status.Phase = b.Status.Phase)
    (h2 : a.Status.Message = b.Status.Message) (h3 : a.Status.StartedAt = b.Status.StartedAt)
    (h4 : a.Status.FinishedAt = b.Status.FinishedAt)
    (h5 : a.Status.Vertices = b.Status.Vertices) : a = b := by
  obtain ⟨⟨_, _, _, _, _⟩⟩ := a
  obtain ⟨⟨_, _, _, _, _⟩⟩ := b
  simp only at h1 h2 h3 h4 h5
  subst h1 h2 h3 h4 h5
  rfl

theorem markExecutionPhase_lookup (nowStart nowFinish : Time) (exec : Execution)
    (phase : VertexPhase) (message : String) (k : String) :
    (MarkExecutionPhase nowStart nowFinish exec phase message).Status.Vertices.lookup k
      = exec.Status.Vertices.lookup k := by
  rw [(markExecutionPhase_status nowStart nowFinish exec phase message).2.2.2.2]
  cases exec.Status.Vertices <;> rfl

/-- C5: after `MarkExecutionPhase` the status has the requested phase and message;
`StartedAt` is the old value if that was non-zero and otherwise the clock reading
taken for it; `FinishedAt` is the old value if that was non-zero, otherwise the
clock reading taken for it if the requested phase is Succeeded, Failed or Error,
otherwise still zero; `Vertices` is the old map if it was non-nil and an empty
non-nil map otherwise.  The two clock readings of the body are independent
arguments here; the claim is the case where both are the same non-zero `now`. -/
theorem C5_markExecutionPhase_fields (nowStart nowFinish : Time) (exec : Execution)
    (phase : VertexPhase) (message : String) :
    (MarkExecutionPhase nowStart nowFinish exec phase message).Status.Phase = phase
    ∧ (MarkExecutionPhase nowStart nowFinish exec phase message).Status.Message = message
    ∧ (MarkExecutionPhase nowStart nowFinish exec phase message).Status.StartedAt
        = (if exec.Status.StartedAt ≠ 0 then exec.Status.StartedAt else nowStart)
    ∧ (MarkExecutionPhase nowStart nowFinish exec phase message).Status.FinishedAt
        = (if exec.Status.FinishedAt ≠ 0 then exec.Status.FinishedAt
          else if phase = VertexSucceeded ∨ phase = VertexFailed ∨ phase = VertexError
            then nowFinish
          else 0)
    ∧ (MarkExecutionPhase nowStart nowFinish exec phase message).Status.Vertices
        = (match exec.Status.Vertices with
          | some m => some m
          | none => some (fun _ => none)) :=
  markExecutionPhase_status nowStart nowFinish exec phase message

/-- C7: calling `MarkExecutionPhase` a second time with the same phase and message
leaves the execution exactly as the first call left it, whenever the clock
readings of the first call are non-zero (the readings of the second call are
arbitrary). -/
theorem C7_markExecutionPhase_idempotent (now1 now1f now2 now2f : Time) (exec : Execution)
    (phase : VertexPhase) (message : String) (h1 : now1 ≠ 0) (h1f : now1f ≠ 0) :
    MarkExecutionPhase now2 now2f (MarkExecutionPhase now1 now1f exec phase message)
        phase message
      = MarkExecutionPhase now1 now1f exec phase message := by
  obtain ⟨hp, hm, hs, hf, hv⟩ :=
    markExecutionPhase_status now1 now1f exec phase message
  obtain ⟨hp2, hm2, hs2, hf2, hv2⟩ :=
    markExecutionPhase_status now2 now2f (MarkExecutionPhase now1 now1f exec phase message)
      phase message
  apply execution_ext
  · rw [hp2, hp]
  · rw [hm2, hm]
  · rw [hs2, if_pos]
    rw [hs]
    split_ifs with h
    · exact h
    · exact h1
  · rw [hf2]
    by_cases hz : (MarkExecutionPhase now1 now1f exec phase message).Status.FinishedAt = 0
    · rw [if_neg (by simpa using hz)]
      have hz0 := hz
      rw [hf] at hz
      by_cases hc : phase = VertexSucceeded ∨ phase = VertexFailed ∨ phase = VertexError
      · exfalso
        split_ifs at hz with h
        · exact h hz
        · exact h1f hz
      · rw [if_neg hc, hz0]
    · rw [if_pos hz]
  · rw [hv2, hv]
    cases exec.Status.Vertices <;> rfl

/-- Witness for C7 on a fresh execution (zero timestamps, nil `Vertices`) marked
Succeeded at instants 5 and 6 and again at 8 and 9. -/
theorem C7_markExecutionPhase_idempotent_witness :
    (5 : Time) ≠ 0 ∧ (6 : Time) ≠ 0
    ∧ MarkExecutionPhase 8 9
        (MarkExecutionPhase 5 6 ⟨⟨"", "", 0, 0, none⟩⟩ VertexSucceeded "done")
        VertexSucceeded "done"
      = MarkExecutionPhase 5 6 ⟨⟨"", "", 0, 0, none⟩⟩ VertexSucceeded "done" :=
  ⟨by decide, by decide,
    C7_markExecutionPhase_idempotent 5 6 8 9 ⟨⟨"", "", 0, 0, none⟩⟩ VertexSucceeded "done"
      (by decide) (by decide)⟩

/-! ## Vertex phase transitions -/

theorem markVertexPhase_missing (now : Time) (exec : Execution) (vertexName : String)
    (phase : VertexPhase) (message : String)
    (h : exec.Status.Vertices.lookup (VertexId vertexName) = none) :
    MarkVertexPhase now exec vertexName phase message
      = (Outcome.panicked ("can not get status fot vertex " ++ vertexName), exec) := by
  simp [MarkVertexPhase, GetVertexStatus, h]

theorem markVertexPhase_found (now : Time) (exec : Execution) (vertexName : String)
    (phase : VertexPhase) (message : String) (f : String → Option VertexStatus)
    (vs : VertexStatus) (hf : exec.Status.Vertices = some f)
    (hv : f (VertexId vertexName) = some vs) :
    MarkVertexPhase now exec vertexName phase message
      = (Outcome.returned,
          ⟨{ exec.Status with
              Vertices := some (fun j =>
                if j = vs.ID then some (markedStatus now vs phase message) else f j) }⟩) := by
  obtain ⟨⟨p, m, sa, fa, v⟩⟩ := exec
  simp only at hf
  subst hf
  obtain ⟨id, nm, vp, vm, vsa, vfa, ch, ty⟩ := vs
  by_cases h3 : phase = VertexSucceeded
  · subst h3
    by_cases h1 : vp = VertexSucceeded <;> by_cases h2 : vm = message <;>
      by_cases h4 : vfa = 0 <;>
      simp [MarkVertexPhase, GetVertexStatus, GoMap.lookup, GoMap.assign, hv, markedStatus,
        Time.IsZero, h1, h2, h4]
  · by_cases h1 : vp = phase <;> by_cases h2 : vm = message <;>
      by_cases h4 : vfa = 0 <;>
      simp [MarkVertexPhase, GetVertexStatus, GoMap.lookup, GoMap.assign, hv, markedStatus,
        Time.IsZero, h1, h2, h3, h4]

theorem lookup_some_iff {α : Type} (m : GoMap α) (k : String) (v : α) :
    m.lookup k = some v ↔ ∃ f, m = some f ∧ f k = some v := by
  cases m with
  | none => simp [GoMap.lookup]
  | some f => simp [GoMap.lookup]

/-- C9: `MarkVertexPhase` fails exactly when the `Vertices` map has no entry under
`VertexId vertexName`, which is the case for a nil map; a failed call leaves the
execution as it found it; with an entry present the call returns; and the
assignment into the map at the end never hits a nil map. -/
theorem C9_markVertexPhase_failure (now : Time) (exec : Execution) (vertexName : String)
    (phase : VertexPhase) (message : String) :
    ((MarkVertexPhase now exec vertexName phase message).1.failed = true
      ↔ exec.Status.Vertices.lookup (VertexId vertexName) = none)
    ∧ (exec.Status.Vertices = none →
        (MarkVertexPhase now exec vertexName phase message).1.failed = true)
    ∧ ((MarkVertexPhase now exec vertexName phase message).1.failed = true →
        (MarkVertexPhase now exec vertexName phase message).1
            = Outcome.panicked ("can not get status fot vertex " ++ vertexName)
          ∧ (MarkVertexPhase now exec vertexName phase message).2 = exec)
    ∧ ((∃ vs, exec.Status.Vertices.lookup (VertexId vertexName) = some vs) →
        (MarkVertexPhase now exec vertexName phase message).1 = Outcome.returned)
    ∧ (MarkVertexPhase now exec vertexName phase message).1 ≠ Outcome.nilMapAssign := by
  cases h : exec.Status.Vertices.lookup (VertexId vertexName) with
  | none =>
    have hm := markVertexPhase_missing now exec vertexName phase message h
    refine ⟨?_, ?_, ?_, ?_, ?_⟩
    · rw [hm]; simp [Outcome.failed]
    · intro _; rw [hm]; rfl
    · intro _; rw [hm]; exact ⟨rfl, rfl⟩
    · rintro ⟨vs, hvs⟩; exact Option.noConfusion hvs
    · rw [hm]; exact fun e => Outcome.noConfusion e
  | some vs =>
    obtain ⟨f, hf, hv⟩ := (lookup_some_iff _ _ _).1 h
    have hm := markVertexPhase_found now exec vertexName phase message f vs hf hv
    refine ⟨?_, ?_, ?_, ?_, ?_⟩
    · rw [hm]; simp [Outcome.failed]
    · intro hnil; rw [hnil] at hf; exact Option.noConfusion hf
    · intro hfail; rw [hm] at hfail; exact Bool.noConfusion hfail
    · intro _; rw [hm]
    · rw [hm]; exact fun e => Outcome.noConfusion e

theorem getVertexStatus_eq_lookup (exec : Execution) (vertexName : String) :
    GetVertexStatus exec vertexName = exec.Status.Vertices.lookup (VertexId vertexName) := by
  simp only [GetVertexStatus]
  cases exec.Status.Vertices.lookup (VertexId vertexName) <;> rfl

/-- The entry read back under `vertexName` after `MarkVertexPhase`, when the entry
found there carries `vertexName` as its `ID`. -/
theorem markVertexPhase_readback (now : Time) (exec : Execution) (vertexName : String)
    (phase : VertexPhase) (message : String) (vs : VertexStatus)
    (h : exec.Status.Vertices.lookup (VertexId vertexName) = some vs)
    (hid : vs.ID = VertexId vertexName) :
    GetVertexStatus (MarkVertexPhase now exec vertexName phase message).2 vertexName
      = some (markedStatus now vs phase message) := by
  obtain ⟨f, hf, hv⟩ := (lookup_some_iff _ _ _).1 h
  rw [markVertexPhase_found now exec vertexName phase message f vs hf hv]
  simp [GetVertexStatus, GoMap.lookup, hid]

/-- C10 as stated fails: on `exMisKeyed`, whose entry under "a" has `ID` "b", marking
"a" Running leaves the status read back under "a" at phase Pending with its old
message; and on `exKeyed`, marking "a" Succeeded at the zero instant leaves
`FinishedAt` zero. -/
theorem C10_counterexample :
    (GetVertexStatus exMisKeyed "a").isSome = true
    ∧ (GetVertexStatus (MarkVertexPhase 7 exMisKeyed "a" VertexRunning "go").2 "a").map
        (fun s => (s.Phase, s.Message)) = some (VertexPending, "")
    ∧ (GetVertexStatus exKeyed "a").isSome = true
    ∧ (GetVertexStatus (MarkVertexPhase 0 exKeyed "a" VertexSucceeded "ok").2 "a").map
        (fun s => s.FinishedAt) = some 0 := by
  refine ⟨by decide, by decide, by decide, by decide⟩

/-- C10 (amended): when the entry stored under `vertexName` carries `vertexName` as
its `ID`, the status read back by `GetVertexStatus` after `MarkVertexPhase` has the
requested phase and message, and a non-zero `FinishedAt` when the requested phase
is Succeeded and either `FinishedAt` was already non-zero or the clock reading is
non-zero. -/
theorem C10_markVertexPhase_readback (now : Time) (exec : Execution) (vertexName : String)
    (phase : VertexPhase) (message : String) (vs : VertexStatus)
    (h : GetVertexStatus exec vertexName = some vs)
    (hid : vs.ID = VertexId vertexName) :
    ∃ vs2, GetVertexStatus (MarkVertexPhase now exec vertexName phase message).2 vertexName
        = some vs2
      ∧ vs2.Phase = phase ∧ vs2.Message = message
      ∧ (phase = VertexSucceeded → vs.FinishedAt ≠ 0 ∨ now ≠ 0 → vs2.FinishedAt ≠ 0) := by
  have hl : exec.Status.Vertices.lookup (VertexId vertexName) = some vs := by
    rw [← getVertexStatus_eq_lookup]; exact h
  refine ⟨markedStatus now vs phase message,
    markVertexPhase_readback now exec vertexName phase message vs hl hid, rfl, rfl, ?_⟩
  intro hp hnz
  simp only [markedStatus, hp, true_and]
  split_ifs with hz
  · rcases hnz with hnz | hnz
    · exact absurd hz hnz
    · exact hnz
  · exact hz

/-- Witness for C10 (amended) on `exKeyed`, marking "a" Succeeded at instant 7. -/
theorem C10_markVertexPhase_readback_witness :
    GetVertexStatus exKeyed "a" = some (sampleStatus "a" "a" 0)
    ∧ (sampleStatus "a" "a" 0).ID = VertexId "a"
    ∧ ∃ vs2, GetVertexStatus (MarkVertexPhase 7 exKeyed "a" VertexSucceeded "ok").2 "a"
        = some vs2
      ∧ vs2.Phase = VertexSucceeded ∧ vs2.Message = "ok"
      ∧ (VertexSucceeded = VertexSucceeded →
          (sampleStatus "a" "a" 0).FinishedAt ≠ 0 ∨ (7 : Time) ≠ 0 → vs2.FinishedAt ≠ 0) :=
  ⟨by decide, by decide,
    C10_markVertexPhase_readback 7 exKeyed "a" VertexSucceeded "ok" (sampleStatus "a" "a" 0)
      (by decide) (by decide)⟩

theorem markedStatus_idem (now1 now2 : Time) (vs : VertexStatus) (phase : VertexPhase)
    (message : String) (h1 : now1 ≠ 0) :
    markedStatus now2 (markedStatus now1 vs phase message) phase message
      = markedStatus now1 vs phase message := by
  obtain ⟨id, nm, vp, vm, vsa, vfa, ch, ty⟩ := vs
  by_cases hp : phase = VertexSucceeded <;> by_cases hz : vfa = 0 <;>
    simp [markedStatus, hp, hz, h1]

/-- C8 as stated fails: on `exMisKeyed`, whose entry under "a" has `ID` "b", marking
"a" Succeeded at instant 1 and again at instant 2 does not leave the execution as
the first call left it (the entry written under "b" is finished at 1 after the
first call and at 2 after the second); and on `exKeyed`, a first call at the zero
instant followed by a call at instant 2 changes `FinishedAt` from zero to 2. -/
theorem C8_counterexample :
    ((GetVertexStatus exMisKeyed "a").isSome = true
      ∧ (MarkVertexPhase 2 (MarkVertexPhase 1 exMisKeyed "a" VertexSucceeded "ok").2 "a"
            VertexSucceeded "ok").2
          ≠ (MarkVertexPhase 1 exMisKeyed "a" VertexSucceeded "ok").2)
    ∧ ((GetVertexStatus exKeyed "a").isSome = true
      ∧ (MarkVertexPhase 2 (MarkVertexPhase 0 exKeyed "a" VertexSucceeded "ok").2 "a"
            VertexSucceeded "ok").2
          ≠ (MarkVertexPhase 0 exKeyed "a" VertexSucceeded "ok").2) := by
  refine ⟨⟨by decide, ?_⟩, ⟨by decide, ?_⟩⟩
  · intro h
    have h2 := congrArg
      (fun e : Execution => (e.Status.Vertices.lookup "b").map (fun s => s.FinishedAt)) h
    revert h2
    decide
  · intro h
    have h2 := congrArg
      (fun e : Execution => (e.Status.Vertices.lookup "a").map (fun s => s.FinishedAt)) h
    revert h2
    decide

/-- C8 (amended): when the entry stored under `vertexName` carries `vertexName` as
its `ID` and the clock reading of the first call is non-zero, calling
`MarkVertexPhase` a second time with the same phase and message returns and leaves
the whole execution exactly as the first call left it, whatever the second clock
reading is. -/
theorem C8_markVertexPhase_idempotent (now1 now2 : Time) (exec : Execution)
    (vertexName : String) (phase : VertexPhase) (message : String) (vs : VertexStatus)
    (h : GetVertexStatus exec vertexName = some vs)
    (hid : vs.ID = VertexId vertexName) (h1 : now1 ≠ 0) :
    MarkVertexPhase now2 (MarkVertexPhase now1 exec vertexName phase message).2 vertexName
        phase message
      = (Outcome.returned, (MarkVertexPhase now1 exec vertexName phase message).2) := by
  rw [getVertexStatus_eq_lookup] at h
  obtain ⟨f, hf, hv⟩ := (lookup_some_iff _ _ _).1 h
  rw [markVertexPhase_found now1 exec vertexName phase message f vs hf hv]
  have hg : (fun j => if j = vs.ID then some (markedStatus now1 vs phase message) else f j)
      (VertexId vertexName) = some (markedStatus now1 vs phase message) := by
    simp [hid]
  rw [markVertexPhase_found now2 _ vertexName phase message _ _ rfl hg]
  rw [markedStatus_idem now1 now2 vs phase message h1]
  have hid2 : (markedStatus now1 vs phase message).ID = vs.ID := rfl
  simp only [hid2]
  congr 4
  funext j
  by_cases hj : j = vs.ID <;> simp [hj]

/-- Witness for C8 (amended) on `exKeyed`, marking "a" Succeeded at instants 1 and 2. -/
theorem C8_markVertexPhase_idempotent_witness :
    GetVertexStatus exKeyed "a" = some (sampleStatus "a" "a" 0)
    ∧ (sampleStatus "a" "a" 0).ID = VertexId "a" ∧ (1 : Time) ≠ 0
    ∧ MarkVertexPhase 2 (MarkVertexPhase 1 exKeyed "a" VertexSucceeded "ok").2 "a"
          VertexSucceeded "ok"
        = (Outcome.returned, (MarkVertexPhase 1 exKeyed "a" VertexSucceeded "ok").2) :=
  ⟨by decide, by decide, by decide,
    C8_markVertexPhase_idempotent 1 2 exKeyed "a" VertexSucceeded "ok"
      (sampleStatus "a" "a" 0) (by decide) (by decide) (by decide)⟩

/-! ## Sequences of calls: `FinishedAt` is kept -/

theorem runCalls_append (before after : List Call) (exec : Execution) :
    runCalls (before ++ after) exec = runCalls after (runCalls before exec) := by
  induction before generalizing exec with
  | nil => rfl
  | cons c cs ih => simp [runCalls, ih]

/-- `MarkVertexPhase` writes none of the execution-level fields. -/
theorem markVertexPhase_frame (now : Time) (exec : Execution) (vertexName : String)
    (phase : VertexPhase) (message : String) :
    (MarkVertexPhase now exec vertexName phase message).2.Status.Phase = exec.Status.Phase
    ∧ (MarkVertexPhase now exec vertexName phase message).2.Status.Message
        = exec.Status.Message
    ∧ (MarkVertexPhase now exec vertexName phase message).2.Status.StartedAt
        = exec.Status.StartedAt
    ∧ (MarkVertexPhase now exec vertexName phase message).2.Status.FinishedAt
        = exec.Status.FinishedAt := by
  cases h : exec.Status.Vertices.lookup (VertexId vertexName) with
  | none =>
    rw [markVertexPhase_missing now exec vertexName phase message h]
    exact ⟨rfl, rfl, rfl, rfl⟩
  | some vs =>
    obtain ⟨f, hf, hv⟩ := (lookup_some_iff _ _ _).1 h
    rw [markVertexPhase_found now exec vertexName phase message f vs hf hv]
    exact ⟨rfl, rfl, rfl, rfl⟩

/-- The map after `MarkVertexPhase`, read under any key `k`, when the call found
the entry `vs`. -/
theorem markVertexPhase_lookup (now : Time) (exec : Execution) (vertexName : String)
    (phase : VertexPhase) (message : String) (vs : VertexStatus)
    (h : exec.Status.Vertices.lookup (VertexId vertexName) = some vs) (k : String) :
    (MarkVertexPhase now exec vertexName phase message).2.Status.Vertices.lookup k
      = if k = vs.ID then some (markedStatus now vs phase message)
        else exec.Status.Vertices.lookup k := by
  obtain ⟨f, hf, hv⟩ := (lookup_some_iff _ _ _).1 h
  rw [markVertexPhase_found now exec vertexName phase message f vs hf hv, hf]
  rfl

theorem markedStatus_finishedAt (now : Time) (vs : VertexStatus) (phase : VertexPhase)
    (message : String) (h : vs.FinishedAt ≠ 0) :
    (markedStatus now vs phase message).FinishedAt = vs.FinishedAt := by
  simp [markedStatus, h]

theorem call_run_finishedAt (c : Call) (exec : Execution) (h : exec.Status.FinishedAt ≠ 0) :
    (c.run exec).Status.FinishedAt = exec.Status.FinishedAt := by
  cases c with
  | markExecution nowStart nowFinish phase message =>
    simp only [Call.run]
    rw [(markExecutionPhase_status nowStart nowFinish exec phase message).2.2.2.1, if_pos h]
  | markVertex now vertexName phase message =>
    exact (markVertexPhase_frame now exec vertexName phase message).2.2.2

theorem call_run_wellKeyed (c : Call) (exec : Execution) (hwk : WellKeyed exec) :
    WellKeyed (c.run exec) := by
  cases c with
  | markExecution nowStart nowFinish phase message =>
    intro k s hs
    simp only [Call.run] at hs
    rw [markExecutionPhase_lookup] at hs
    exact hwk k s hs
  | markVertex now vertexName phase message =>
    intro k s hs
    simp only [Call.run] at hs
    cases h : exec.Status.Vertices.lookup (VertexId vertexName) with
    | none =>
      rw [markVertexPhase_missing now exec vertexName phase message h] at hs
      exact hwk k s hs
    | some vs =>
      rw [markVertexPhase_lookup now exec vertexName phase message vs h k] at hs
      by_cases hk : k = vs.ID
      · rw [if_pos hk] at hs
        simp only [Option.some.injEq] at hs
        rw [← hs, hk]
        rfl
      · rw [if_neg hk] at hs
        exact hwk k s hs

theorem call_run_vertex_finishedAt (c : Call) (exec : Execution) (hwk : WellKeyed exec)
    (k : String) (s : VertexStatus) (hs : exec.Status.Vertices.lookup k = some s)
    (hz : s.FinishedAt ≠ 0) :
    ∃ s2, (c.run exec).Status.Vertices.lookup k = some s2
      ∧ s2.FinishedAt = s.FinishedAt := by
  cases c with
  | markExecution nowStart nowFinish phase message =>
    refine ⟨s, ?_, rfl⟩
    simp only [Call.run]
    rw [markExecutionPhase_lookup]
    exact hs
  | markVertex now vertexName phase message =>
    simp only [Call.run]
    cases h : exec.Status.Vertices.lookup (VertexId vertexName) with
    | none =>
      rw [markVertexPhase_missing now exec vertexName phase message h]
      exact ⟨s, hs, rfl⟩
    | some vs =>
      rw [markVertexPhase_lookup now exec vertexName phase message vs h k]
      have hvid : vs.ID = VertexId vertexName := hwk _ _ h
      by_cases hk : k = vs.ID
      · rw [if_pos hk]
        have hsv : s = vs := by
          rw [hk, hvid, h] at hs
          exact (Option.some.inj hs).symm
        subst hsv
        exact ⟨_, rfl, markedStatus_finishedAt now s phase message hz⟩
      · rw [if_neg hk]
        exact ⟨s, hs, rfl⟩

theorem runCalls_wellKeyed (calls : List Call) (exec : Execution) (hwk : WellKeyed exec) :
    WellKeyed (runCalls calls exec) := by
  induction calls generalizing exec with
  | nil => exact hwk
  | cons c cs ih => exact ih (c.run exec) (call_run_wellKeyed c exec hwk)

theorem runCalls_finishedAt (calls : List Call) (exec : Execution)
    (h : exec.Status.FinishedAt ≠ 0) :
    (runCalls calls exec).Status.FinishedAt = exec.Status.FinishedAt := by
  induction calls generalizing exec with
  | nil => rfl
  | cons c cs ih =>
    have hc := call_run_finishedAt c exec h
    simp only [runCalls]
    rw [ih (c.run exec) (by rw [hc]; exact h), hc]

theorem runCalls_vertex_finishedAt (calls : List Call) (exec : Execution)
    (hwk : WellKeyed exec) (k : String) (s : VertexStatus)
    (hs : exec.Status.Vertices.lookup k = some s) (hz : s.FinishedAt ≠ 0) :
    ∃ s2, (runCalls calls exec).Status.Vertices.lookup k = some s2
      ∧ s2.FinishedAt = s.FinishedAt := by
  induction calls generalizing exec s with
  | nil => exact ⟨s, hs, rfl⟩
  | cons c cs ih =>
    obtain ⟨s1, hs1, hf1⟩ := call_run_vertex_finishedAt c exec hwk k s hs hz
    obtain ⟨s2, hs2, hf2⟩ :=
      ih (c.run exec) (call_run_wellKeyed c exec hwk) s1 hs1 (by rw [hf1]; exact hz)
    exact ⟨s2, hs2, by rw [hf2, hf1]⟩

/-- C6 as stated fails for vertex statuses: on `exTwoEntries` the status under "b" is
finished at instant 5, and one call `MarkVertexPhase(exec, "a", Running, "")`, which
finds under "a" a status whose `ID` is "b" and writes it back under "b", leaves the
status under "b" finished at instant 7. -/
theorem C6_counterexample :
    (exTwoEntries.Status.Vertices.lookup "b").map (fun s => s.FinishedAt) = some 5
    ∧ ((runCalls [Call.markVertex 9 "a" VertexRunning ""] exTwoEntries).Status.Vertices.lookup
        "b").map (fun s => s.FinishedAt) = some 7 := by
  refine ⟨by decide, by decide⟩

/-- C6 (amended): for every execution and any sequence of `MarkExecutionPhase` /
`MarkVertexPhase` calls with arbitrary phases, messages and clock readings: once,
after some calls, the execution's `FinishedAt` is non-zero, it has that same value
after any further calls; and when the execution is well-keyed (every key of
`Vertices` holds a status whose `ID` is that key): once the status under a key has a
non-zero `FinishedAt`, there still is a status under that key with that same
`FinishedAt` after any further calls. -/
theorem C6_finishedAt_kept (exec : Execution) (before after : List Call) :
    ((runCalls before exec).Status.FinishedAt ≠ 0 →
      (runCalls (before ++ after) exec).Status.FinishedAt
        = (runCalls before exec).Status.FinishedAt)
    ∧ (WellKeyed exec →
        ∀ k s, (runCalls before exec).Status.Vertices.lookup k = some s →
          s.FinishedAt ≠ 0 →
          ∃ s2, (runCalls (before ++ after) exec).Status.Vertices.lookup k = some s2
            ∧ s2.FinishedAt = s.FinishedAt) := by
  rw [runCalls_append]
  constructor
  · intro h
    exact runCalls_finishedAt after _ h
  · intro hwk k s hs hz
    exact runCalls_vertex_finishedAt after _ (runCalls_wellKeyed before exec hwk) k s hs hz

theorem exFinished_wellKeyed : WellKeyed exFinished := by
  intro k s hs
  simp only [exFinished, GoMap.lookup] at hs
  by_cases hk : k = "a"
  · rw [if_pos hk] at hs
    simp only [Option.some.injEq] at hs
    rw [← hs, hk]
    rfl
  · rw [if_neg hk] at hs
    exact Option.noConfusion hs

/-- Witness for C6 (amended).  On the well-keyed `exFinished`: one vertex call, then
an execution call marking Failed and a vertex call marking Succeeded; the execution
stays finished at 4 and the status under "a" at 3.  On `exMisKeyed`, which is not
well-keyed: once marked Succeeded with `FinishedAt` 6, the execution keeps that value
through a vertex call and an execution call marking Failed. -/
theorem C6_finishedAt_kept_witness :
    WellKeyed exFinished
    ∧ (runCalls [Call.markVertex 2 "a" VertexRunning "x"] exFinished).Status.FinishedAt = 4
    ∧ (runCalls ([Call.markVertex 2 "a" VertexRunning "x"]
          ++ [Call.markExecution 8 9 VertexFailed "boom",
              Call.markVertex 10 "a" VertexSucceeded "ok"]) exFinished).Status.FinishedAt
        = (runCalls [Call.markVertex 2 "a" VertexRunning "x"] exFinished).Status.FinishedAt
    ∧ ((runCalls [Call.markVertex 2 "a" VertexRunning "x"] exFinished).Status.Vertices.lookup
        "a").map (fun s => s.FinishedAt) = some 3
    ∧ (∀ k s,
        (runCalls [Call.markVertex 2 "a" VertexRunning "x"] exFinished).Status.Vertices.lookup k
          = some s →
        s.FinishedAt ≠ 0 →
        ∃ s2, (runCalls ([Call.markVertex 2 "a" VertexRunning "x"]
              ++ [Call.markExecution 8 9 VertexFailed "boom",
                  Call.markVertex 10 "a" VertexSucceeded "ok"]) exFinished).Status.Vertices.lookup
              k = some s2
          ∧ s2.FinishedAt = s.FinishedAt)
    ∧ (runCalls [Call.markExecution 5 6 VertexSucceeded "done"] exMisKeyed).Status.FinishedAt
        = 6
    ∧ (runCalls ([Call.markExecution 5 6 VertexSucceeded "done"]
          ++ [Call.markVertex 7 "a" VertexSucceeded "ok",
              Call.markExecution 8 9 VertexFailed "boom"]) exMisKeyed).Status.FinishedAt
        = (runCalls [Call.markExecution 5 6 VertexSucceeded "done"]
            exMisKeyed).Status.FinishedAt :=
  ⟨exFinished_wellKeyed, by decide,
    (C6_finishedAt_kept exFinished [Call.markVertex 2 "a" VertexRunning "x"]
      [Call.markExecution 8 9 VertexFailed "boom",
        Call.markVertex 10 "a" VertexSucceeded "ok"]).1 (by decide),
    by decide,
    (C6_finishedAt_kept exFinished [Call.markVertex 2 "a" VertexRunning "x"]
      [Call.markExecution 8 9 VertexFailed "boom",
        Call.markVertex 10 "a" VertexSucceeded "ok"]).2 exFinished_wellKeyed,
    by decide,
    (C6_finishedAt_kept exMisKeyed [Call.markExecution 5 6 VertexSucceeded "done"]
      [Call.markVertex 7 "a" VertexSucceeded "ok",
        Call.markExecution 8 9 VertexFailed "boom"]).1 (by decide)⟩

/-! ## `FinishedAt` on terminal vertex phases -/

/-- C11 as stated fails: on `exKeyed` (entry under "a" with `ID` "a" and zero
`FinishedAt`) `MarkVertexFailed` and `MarkVertexError` at instant 7 return and leave
`FinishedAt` zero, since only phase Succeeded is stamped; on `exMisKeyed`
`MarkVertexSuccess` at instant 7 leaves the status under "a" with a zero
`FinishedAt`; and on `exKeyed` `MarkVertexSuccess` at the zero instant leaves
`FinishedAt` zero. -/
theorem C11_counterexample :
    (GetVertexStatus exKeyed "a").map (fun s => s.FinishedAt) = some 0
    ∧ (MarkVertexFailed 7 exKeyed "a" "boom").1 = Outcome.returned
    ∧ (GetVertexStatus (MarkVertexFailed 7 exKeyed "a" "boom").2 "a").map
        (fun s => (s.Phase, s.FinishedAt)) = some (VertexFailed, 0)
    ∧ (MarkVertexError 7 exKeyed "a" "boom").1 = Outcome.returned
    ∧ (GetVertexStatus (MarkVertexError 7 exKeyed "a" "boom").2 "a").map
        (fun s => (s.Phase, s.FinishedAt)) = some (VertexError, 0)
    ∧ (GetVertexStatus exMisKeyed "a").map (fun s => s.FinishedAt) = some 0
    ∧ (GetVertexStatus (MarkVertexSuccess 7 exMisKeyed "a" "ok").2 "a").map
        (fun s => s.FinishedAt) = some 0
    ∧ (GetVertexStatus (MarkVertexSuccess 0 exKeyed "a" "ok").2 "a").map
        (fun s => s.FinishedAt) = some 0 := by
  refine ⟨by decide, by decide, by decide, by decide, by decide, by decide, by decide,
    by decide⟩

/-- C11 (amended): when the entry stored under `vertexName` carries `vertexName` as
its `ID` and has a zero `FinishedAt`, and the clock reading is non-zero, then after
`MarkVertexPhase` with phase Succeeded, which is what `MarkVertexSuccess` calls, the
status under `vertexName` has `FinishedAt` equal to the clock reading, hence
non-zero. -/
theorem C11_succeeded_sets_finishedAt (now : Time) (exec : Execution) (vertexName : String)
    (message : String) (vs : VertexStatus)
    (h : GetVertexStatus exec vertexName = some vs)
    (hid : vs.ID = VertexId vertexName) (hz : vs.FinishedAt = 0) (hnow : now ≠ 0) :
    MarkVertexSuccess now exec vertexName message
        = MarkVertexPhase now exec vertexName VertexSucceeded message
    ∧ ∃ vs2,
        GetVertexStatus (MarkVertexPhase now exec vertexName VertexSucceeded message).2
            vertexName = some vs2
        ∧ vs2.FinishedAt = now ∧ vs2.FinishedAt ≠ 0 := by
  rw [getVertexStatus_eq_lookup] at h
  refine ⟨rfl, markedStatus now vs VertexSucceeded message,
    markVertexPhase_readback now exec vertexName VertexSucceeded message vs h hid, ?_, ?_⟩
  · simp [markedStatus, hz]
  · simp [markedStatus, hz, hnow]

/-- Witness for C11 (amended) on `exKeyed`, marking "a" succeeded at instant 7. -/
theorem C11_succeeded_sets_finishedAt_witness :
    GetVertexStatus exKeyed "a" = some (sampleStatus "a" "a" 0)
    ∧ (sampleStatus "a" "a" 0).ID = VertexId "a"
    ∧ (sampleStatus "a" "a" 0).FinishedAt = 0 ∧ (7 : Time) ≠ 0
    ∧ MarkVertexSuccess 7 exKeyed "a" "ok"
        = MarkVertexPhase 7 exKeyed "a" VertexSucceeded "ok"
    ∧ ∃ vs2,
        GetVertexStatus (MarkVertexPhase 7 exKeyed "a" VertexSucceeded "ok").2 "a" = some vs2
        ∧ vs2.FinishedAt = 7 ∧ vs2.FinishedAt ≠ 0 :=
  ⟨by decide, by decide, by decide, by decide,
    C11_succeeded_sets_finishedAt 7 exKeyed "a" "ok" (sampleStatus "a" "a" 0)
      (by decide) (by decide) (by decide) (by decide)⟩

/-! ## Terminal phases -/

/-- C12 as stated fails: `exAllDone` has phase Succeeded and its vertex "a" has phase
Succeeded; `MarkExecutionPhase` with phase Running leaves the execution at phase
Running, and `MarkVertexPhase` on "a" with phase Pending returns and leaves the
vertex at phase Pending. -/
theorem C12_counterexample :
    IsTerminal exAllDone.Status.Phase
    ∧ ¬ IsTerminal (MarkExecutionPhase 8 9 exAllDone VertexRunning "again").Status.Phase
    ∧ (GetVertexStatus exAllDone "a").map (fun s => s.Phase) = some VertexSucceeded
    ∧ (MarkVertexPhase 9 exAllDone "a" VertexPending "retry").1 = Outcome.returned
    ∧ (GetVertexStatus (MarkVertexPhase 9 exAllDone "a" VertexPending "retry").2 "a").map
        (fun s => s.Phase) = some VertexPending
    ∧ ¬ IsTerminal VertexPending := by
  refine ⟨by decide, by decide, by decide, by decide, by decide, by decide⟩

/-- C12 (amended): a call that requests a terminal phase (Succeeded, Failed or Error)
undoes no terminal phase: after `MarkExecutionPhase` an execution whose phase was
terminal still has a terminal phase, and after `MarkVertexPhase` every vertex status
whose phase was terminal, the one under `vertexName` included, is still present with
a terminal phase. -/
theorem C12_terminal_request_keeps_terminal (nowStart nowFinish now : Time)
    (exec : Execution) (vertexName : String) (phase : VertexPhase) (message : String)
    (hp : IsTerminal phase) :
    (IsTerminal exec.Status.Phase →
      IsTerminal (MarkExecutionPhase nowStart nowFinish exec phase message).Status.Phase)
    ∧ (∀ k s, exec.Status.Vertices.lookup k = some s → IsTerminal s.Phase →
        ∃ s2, (MarkVertexPhase now exec vertexName phase message).2.Status.Vertices.lookup k
            = some s2
          ∧ IsTerminal s2.Phase) := by
  constructor
  · intro _
    rw [(markExecutionPhase_status nowStart nowFinish exec phase message).1]
    exact hp
  · intro k s hs ht
    cases h : exec.Status.Vertices.lookup (VertexId vertexName) with
    | none =>
      rw [markVertexPhase_missing now exec vertexName phase message h]
      exact ⟨s, hs, ht⟩
    | some vs =>
      rw [markVertexPhase_lookup now exec vertexName phase message vs h k]
      by_cases hk : k = vs.ID
      · rw [if_pos hk]
        exact ⟨_, rfl, hp⟩
      · rw [if_neg hk]
        exact ⟨s, hs, ht⟩

/-- Witness for C12 (amended) on `exAllDone` with requested phase Failed. -/
theorem C12_terminal_request_keeps_terminal_witness :
    IsTerminal VertexFailed
    ∧ IsTerminal exAllDone.Status.Phase
    ∧ (exAllDone.Status.Vertices.lookup "a").map (fun s => s.Phase) = some VertexSucceeded
    ∧ (IsTerminal exAllDone.Status.Phase →
      IsTerminal (MarkExecutionPhase 8 9 exAllDone VertexFailed "boom").Status.Phase)
    ∧ (∀ k s, exAllDone.Status.Vertices.lookup k = some s → IsTerminal s.Phase →
        ∃ s2, (MarkVertexPhase 9 exAllDone "a" VertexFailed "boom").2.Status.Vertices.lookup k
            = some s2
          ∧ IsTerminal s2.Phase) :=
  ⟨by decide, by decide, by decide,
    C12_terminal_request_keeps_terminal 8 9 9 exAllDone "a" VertexFailed "boom" (by decide)⟩

/-! ## Job outcome -/

theorem isOutcome_eq_true (c : JobCondition) :
    isOutcome c = true
      ↔ (c.Type_ = JobComplete ∨ c.Type_ = JobFailed) ∧ c.Status = ConditionTrue := by
  simp [isOutcome]

/-- The scan of `GetJobCondition` returns the type and message of the first outcome
condition, or two empty strings. -/
theorem getJobConditionLoop_find (cs : List JobCondition) :
    getJobConditionLoop cs
      = match cs.find? isOutcome with
        | some c => (c.Type_, c.Message)
        | none => ("", "") := by
  induction cs with
  | nil => rfl
  | cons c cs ih =>
    by_cases h1 : c.Type_ = JobComplete ∧ c.Status = ConditionTrue
    · have ho : isOutcome c = true := (isOutcome_eq_true c).2 ⟨Or.inl h1.1, h1.2⟩
      simp [getJobConditionLoop, h1, List.find?, ho]
    · by_cases h2 : c.Type_ = JobFailed ∧ c.Status = ConditionTrue
      · have ho : isOutcome c = true := (isOutcome_eq_true c).2 ⟨Or.inr h2.1, h2.2⟩
        simp only [getJobConditionLoop, if_neg h1, if_pos h2, List.find?, ho]
        rw [h2.1]
      · have ho : isOutcome c = false := by
          cases hb : isOutcome c
          · rfl
          · obtain ⟨ht, hs⟩ := (isOutcome_eq_true c).1 hb
            rcases ht with ht | ht
            · exact absurd ⟨ht, hs⟩ h1
            · exact absurd ⟨ht, hs⟩ h2
        simp only [getJobConditionLoop, if_neg h1, if_neg h2, List.find?, ho]
        exact ih

theorem isJobFinishedLoop_any (cs : List JobCondition) :
    isJobFinishedLoop cs = cs.any isOutcome := by
  induction cs with
  | nil => rfl
  | cons c cs ih =>
    by_cases h : (c.Type_ = JobComplete ∨ c.Type_ = JobFailed) ∧ c.Status = ConditionTrue
    · have ho : isOutcome c = true := (isOutcome_eq_true c).2 h
      simp [isJobFinishedLoop, h, ho]
    · have ho : isOutcome c = false := by
        cases hb : isOutcome c
        · rfl
        · exact absurd ((isOutcome_eq_true c).1 hb) h
      simp only [isJobFinishedLoop, if_neg h, List.any_cons, ho, Bool.false_or]
      exact ih

theorem find_isOutcome_type (cs : List JobCondition) (c : JobCondition)
    (h : cs.find? isOutcome = some c) :
    (c.Type_ = JobComplete ∨ c.Type_ = JobFailed) ∧ c.Status = ConditionTrue :=
  (isOutcome_eq_true c).1 (List.find?_some h)

theorem find_isOutcome_first (pre post : List JobCondition) (c : JobCondition)
    (hpre : ∀ d ∈ pre, isOutcome d = false) (hc : isOutcome c = true) :
    (pre ++ c :: post).find? isOutcome = some c := by
  induction pre with
  | nil => simp [List.find?, hc]
  | cons d ds ih =>
    have hd : isOutcome d = false := hpre d (by simp)
    simp only [List.cons_append, List.find?, hd]
    exact ih (fun e he => hpre e (by simp [he]))

/-- C13: `GetJobCondition` returns the type (Complete or Failed) and the message of
the first condition, in list order, whose status is True and whose type is Complete
or Failed, skipping every other condition; it returns two empty strings exactly when
no condition has status True with type Complete or Failed; and the two example lists
give (Failed, "oom") and ("", ""). -/
theorem C13_getJobCondition_first_outcome :
    (∀ j : Job,
      (∀ (pre post : List JobCondition) (c : JobCondition),
        j.Conditions.elems = pre ++ c :: post →
        (∀ d ∈ pre, ¬ ((d.Type_ = JobComplete ∨ d.Type_ = JobFailed)
          ∧ d.Status = ConditionTrue)) →
        c.Status = ConditionTrue →
        (c.Type_ = JobComplete → GetJobCondition j = (JobComplete, c.Message))
        ∧ (c.Type_ = JobFailed → GetJobCondition j = (JobFailed, c.Message)))
      ∧ (GetJobCondition j = ("", "")
        ↔ ∀ d ∈ j.Conditions.elems, ¬ ((d.Type_ = JobComplete ∨ d.Type_ = JobFailed)
          ∧ d.Status = ConditionTrue)))
    ∧ GetJobCondition ⟨some [⟨JobComplete, ConditionFalse, ""⟩,
        ⟨JobFailed, ConditionTrue, "oom"⟩]⟩ = (JobFailed, "oom")
    ∧ GetJobCondition ⟨some [⟨JobComplete, ConditionFalse, ""⟩]⟩ = ("", "") := by
  refine ⟨?_, by decide, by decide⟩
  intro j
  have hfalse : ∀ d : JobCondition,
      ¬ ((d.Type_ = JobComplete ∨ d.Type_ = JobFailed) ∧ d.Status = ConditionTrue)
        ↔ isOutcome d = false := by
    intro d
    rw [← isOutcome_eq_true]
    cases isOutcome d <;> simp
  constructor
  · intro pre post c hsplit hpre hstatus
    have hfind : ∀ ht : c.Type_ = JobComplete ∨ c.Type_ = JobFailed,
        GetJobCondition j = (c.Type_, c.Message) := by
      intro ht
      have hc : isOutcome c = true := (isOutcome_eq_true c).2 ⟨ht, hstatus⟩
      have := find_isOutcome_first pre post c (fun d hd => (hfalse d).1 (hpre d hd)) hc
      unfold GetJobCondition
      rw [getJobConditionLoop_find, hsplit, this]
    constructor
    · intro ht
      rw [hfind (Or.inl ht), ht]
    · intro ht
      rw [hfind (Or.inr ht), ht]
  · unfold GetJobCondition
    rw [getJobConditionLoop_find]
    cases hf : j.Conditions.elems.find? isOutcome with
    | none =>
      simp only [true_iff]
      intro d hd
      rw [hfalse]
      have := List.find?_eq_none.1 hf d hd
      simpa using this
    | some c =>
      have hc := find_isOutcome_type _ c hf
      have hmem : c ∈ j.Conditions.elems := List.mem_of_find?_eq_some hf
      constructor
      · intro he
        exfalso
        simp only [Prod.mk.injEq] at he
        rcases hc.1 with ht | ht
        · rw [ht] at he; exact absurd he.1 (by decide)
        · rw [ht] at he; exact absurd he.1 (by decide)
      · intro hall
        exact absurd hc (hall c hmem)

/-- C14: `IsJobFinished` is true exactly when some condition of the job has type
Complete or Failed and status True; it is false for a nil and for an empty condition
list, and for a list whose Complete and Failed conditions all have status False or
Unknown. -/
theorem C14_isJobFinished_iff :
    (∀ j : Job,
      (IsJobFinished j = true
        ↔ ∃ c ∈ j.Conditions.elems,
            (c.Type_ = JobComplete ∨ c.Type_ = JobFailed) ∧ c.Status = ConditionTrue)
      ∧ ((∀ c ∈ j.Conditions.elems, c.Type_ = JobComplete ∨ c.Type_ = JobFailed →
            c.Status = ConditionFalse ∨ c.Status = ConditionUnknown) →
          IsJobFinished j = false))
    ∧ IsJobFinished ⟨none⟩ = false
    ∧ IsJobFinished ⟨some []⟩ = false := by
  refine ⟨?_, by decide, by decide⟩
  intro j
  have hiff : IsJobFinished j = true
      ↔ ∃ c ∈ j.Conditions.elems,
          (c.Type_ = JobComplete ∨ c.Type_ = JobFailed) ∧ c.Status = ConditionTrue := by
    unfold IsJobFinished
    rw [isJobFinishedLoop_any, List.any_eq_true]
    constructor
    · rintro ⟨c, hc, ho⟩
      exact ⟨c, hc, (isOutcome_eq_true c).1 ho⟩
    · rintro ⟨c, hc, ho⟩
      exact ⟨c, hc, (isOutcome_eq_true c).2 ho⟩
  refine ⟨hiff, ?_⟩
  intro hall
  cases hb : IsJobFinished j
  · rfl
  · obtain ⟨c, hc, ht, hs⟩ := hiff.1 hb
    exfalso
    rcases hall c hc ht with h | h
    · rw [h] at hs; exact absurd hs (by decide)
    · rw [h] at hs; exact absurd hs (by decide)

/-- C20: `IsJobFinished` is true exactly when `GetJobCondition` returns a non-empty
kind; the kind returned is always Complete, Failed or empty; and when a Complete-true
and a Failed-true condition are both present, the kind returned is the type of the
first condition of the list that is Complete-true or Failed-true. -/
theorem C20_job_outcome_agreement (j : Job) :
    (IsJobFinished j = true ↔ (GetJobCondition j).1 ≠ "")
    ∧ ((GetJobCondition j).1 = JobComplete ∨ (GetJobCondition j).1 = JobFailed
        ∨ (GetJobCondition j).1 = "")
    ∧ (∀ c1 ∈ j.Conditions.elems, ∀ c2 ∈ j.Conditions.elems,
        c1.Type_ = JobComplete ∧ c1.Status = ConditionTrue →
        c2.Type_ = JobFailed ∧ c2.Status = ConditionTrue →
        ∃ (pre post : List JobCondition) (c : JobCondition),
          j.Conditions.elems = pre ++ c :: post
          ∧ (∀ d ∈ pre, ¬ ((d.Type_ = JobComplete ∨ d.Type_ = JobFailed)
              ∧ d.Status = ConditionTrue))
          ∧ ((c.Type_ = JobComplete ∨ c.Type_ = JobFailed) ∧ c.Status = ConditionTrue)
          ∧ (GetJobCondition j).1 = c.Type_) := by
  unfold IsJobFinished GetJobCondition
  rw [isJobFinishedLoop_any, getJobConditionLoop_find]
  cases hf : j.Conditions.elems.find? isOutcome with
  | none =>
    have hnone := List.find?_eq_none.1 hf
    refine ⟨?_, Or.inr (Or.inr rfl), ?_⟩
    · constructor
      · intro hany
        obtain ⟨c, hc, ho⟩ := List.any_eq_true.1 hany
        exact absurd ho (hnone c hc)
      · intro hne
        exact absurd rfl hne
    · intro c1 hc1 _ _ h1 _
      exact absurd ((isOutcome_eq_true c1).2 ⟨Or.inl h1.1, h1.2⟩) (hnone c1 hc1)
  | some c =>
    have hc := find_isOutcome_type _ c hf
    have hmem : c ∈ j.Conditions.elems := List.mem_of_find?_eq_some hf
    refine ⟨?_, ?_, ?_⟩
    · constructor
      · intro _
        show c.Type_ ≠ ""
        rcases hc.1 with ht | ht
        · rw [ht]; decide
        · rw [ht]; decide
      · intro _
        exact List.any_eq_true.2 ⟨c, hmem, (isOutcome_eq_true c).2 hc⟩
    · rcases hc.1 with ht | ht
      · exact Or.inl ht
      · exact Or.inr (Or.inl ht)
    · intro _ _ _ _ _ _
      obtain ⟨pre, post, hsplit, hpre⟩ :
          ∃ pre post, j.Conditions.elems = pre ++ c :: post
            ∧ ∀ d ∈ pre, isOutcome d = false := by
        have := List.find?_eq_some.1 hf
        obtain ⟨_, pre, post, hsplit, hpre⟩ := this
        exact ⟨pre, post, hsplit, fun d hd => by simpa using hpre d hd⟩
      refine ⟨pre, post, c, hsplit, ?_, hc, rfl⟩
      intro d hd hout
      have := hpre d hd
      rw [(isOutcome_eq_true d).2 hout] at this
      exact Bool.noConfusion this

/-! ## Completion test, lookup and initialization -/

/-- C15: `IsExecutionCompleted` is true exactly when the phase is Succeeded, Failed or
Error; it is false for Pending, for Running, for the empty phase and for every other
phase string.  The function only reads its argument: in the embedding it returns a
boolean and no execution. -/
theorem C15_isExecutionCompleted_iff :
    (∀ exec : Execution,
      (IsExecutionCompleted exec = true
        ↔ exec.Status.Phase = VertexSucceeded ∨ exec.Status.Phase = VertexFailed
          ∨ exec.Status.Phase = VertexError)
      ∧ (exec.Status.Phase ≠ VertexSucceeded ∧ exec.Status.Phase ≠ VertexFailed
          ∧ exec.Status.Phase ≠ VertexError → IsExecutionCompleted exec = false))
    ∧ (∀ (message : String) (startedAt finishedAt : Time) (vertices : GoMap VertexStatus),
      IsExecutionCompleted ⟨⟨VertexPending, message, startedAt, finishedAt, vertices⟩⟩ = false
      ∧ IsExecutionCompleted ⟨⟨VertexRunning, message, startedAt, finishedAt, vertices⟩⟩
          = false
      ∧ IsExecutionCompleted ⟨⟨"", message, startedAt, finishedAt, vertices⟩⟩ = false) := by
  have hiff : ∀ exec : Execution,
      IsExecutionCompleted exec = true
        ↔ exec.Status.Phase = VertexSucceeded ∨ exec.Status.Phase = VertexFailed
          ∨ exec.Status.Phase = VertexError := by
    intro exec
    unfold IsExecutionCompleted
    constructor
    · intro h
      split_ifs at h with hc
      rcases hc with hc | hc | hc
      · exact Or.inl hc
      · exact Or.inr (Or.inr hc)
      · exact Or.inr (Or.inl hc)
    · intro h
      rw [if_pos]
      rcases h with h | h | h
      · exact Or.inl h
      · exact Or.inr (Or.inr h)
      · exact Or.inr (Or.inl h)
  have hneg : ∀ exec : Execution,
      exec.Status.Phase ≠ VertexSucceeded ∧ exec.Status.Phase ≠ VertexFailed
        ∧ exec.Status.Phase ≠ VertexError → IsExecutionCompleted exec = false := by
    intro exec hne
    cases hb : IsExecutionCompleted exec
    · rfl
    · rcases (hiff exec).1 hb with h | h | h
      · exact absurd h hne.1
      · exact absurd h hne.2.1
      · exact absurd h hne.2.2
  refine ⟨fun exec => ⟨hiff exec, hneg exec⟩, ?_⟩
  intro message startedAt finishedAt vertices
  have hp : VertexPending ≠ VertexSucceeded ∧ VertexPending ≠ VertexFailed
      ∧ VertexPending ≠ VertexError := by decide
  have hr : VertexRunning ≠ VertexSucceeded ∧ VertexRunning ≠ VertexFailed
      ∧ VertexRunning ≠ VertexError := by decide
  have he : ("" : VertexPhase) ≠ VertexSucceeded ∧ ("" : VertexPhase) ≠ VertexFailed
      ∧ ("" : VertexPhase) ≠ VertexError := by decide
  exact ⟨hneg _ hp, hneg _ hr, hneg _ he⟩

/-- C16: `VertexId` is the identity, and `GetVertexStatus` returns nil exactly when
the `Vertices` map, nil or not, has no entry under the vertex name; otherwise it
returns a status equal to the stored entry.  The function only reads its argument and
has no failing branch: in the embedding it returns an optional status and no
execution. -/
theorem C16_getVertexStatus_lookup (exec : Execution) (vertexName : String) :
    VertexId vertexName = vertexName
    ∧ (GetVertexStatus exec vertexName = none
        ↔ exec.Status.Vertices.lookup vertexName = none)
    ∧ (∀ s, exec.Status.Vertices.lookup vertexName = some s →
        GetVertexStatus exec vertexName = some s)
    ∧ (exec.Status.Vertices = none → GetVertexStatus exec vertexName = none) := by
  have h := getVertexStatus_eq_lookup exec vertexName
  have hid : VertexId vertexName = vertexName := rfl
  rw [hid] at h
  refine ⟨rfl, ?_, ?_, ?_⟩
  · rw [h]
  · intro s hs; rw [h, hs]
  · intro hnil; rw [h, hnil]; rfl

theorem childLoop_eq (children : List Vertex) (childStr : List String) :
    childLoop children childStr = childStr ++ children.map (fun child => child.JobName) := by
  induction children generalizing childStr with
  | nil => simp [childLoop]
  | cons c cs ih => simp [childLoop, ih, VertexId]

/-- C17: `InitializeVertexStatus` returns a status whose `ID` and `Name` are the
vertex name unmodified, whose phase and message are the arguments, whose `StartedAt`
is the clock reading and `FinishedAt` zero, whose type is the job vertex type, and
whose `Children` is the non-nil list of the children's backing-job names, in the same
order and of the same length as the input; it is the empty non-nil list when there are
no children. -/
theorem C17_initializeVertexStatus_fields (now : Time) (vertexName : String)
    (phase : VertexPhase) (message : String) (children : Slice Vertex) :
    (InitializeVertexStatus now vertexName phase message children).ID = vertexName
    ∧ VertexId vertexName = vertexName
    ∧ (InitializeVertexStatus now vertexName phase message children).Name = vertexName
    ∧ (InitializeVertexStatus now vertexName phase message children).Phase = phase
    ∧ (InitializeVertexStatus now vertexName phase message children).Message = message
    ∧ (InitializeVertexStatus now vertexName phase message children).StartedAt = now
    ∧ (InitializeVertexStatus now vertexName phase message children).FinishedAt = 0
    ∧ (InitializeVertexStatus now vertexName phase message children).Type_ = JobVertexType
    ∧ (InitializeVertexStatus now vertexName phase message children).Children
        = some (children.elems.map (fun child => child.JobName))
    ∧ ((InitializeVertexStatus now vertexName phase message children).Children.elems).length
        = children.elems.length
    ∧ (children.elems = [] →
        (InitializeVertexStatus now vertexName phase message children).Children = some []) := by
  have hch : (InitializeVertexStatus now vertexName phase message children).Children
      = some (children.elems.map (fun child => child.JobName)) := by
    simp [InitializeVertexStatus, childLoop_eq]
  refine ⟨rfl, rfl, rfl, rfl, rfl, rfl, rfl, rfl, hch, ?_, ?_⟩
  · rw [hch]; simp [Slice.elems]
  · intro he; rw [hch, he]; rfl

/-! ## Stable keys -/

theorem exKeyed_wellKeyed : WellKeyed exKeyed := by
  intro k s hs
  simp only [exKeyed, GoMap.lookup] at hs
  by_cases hk : k = "a"
  · rw [if_pos hk] at hs
    simp only [Option.some.injEq] at hs
    rw [← hs, hk]
    rfl
  · rw [if_neg hk] at hs
    exact Option.noConfusion hs

/-- C18: on a well-keyed execution, `MarkVertexPhase` called for a `vertexName` that
has a status returns a well-keyed execution with the same keys, in which every entry
under another key is unchanged, the execution-level phase, message, `StartedAt` and
`FinishedAt` are unchanged, and the entry under `VertexId vertexName` keeps its `ID`,
`Name`, `StartedAt`, `Children` and type; `MarkExecutionPhase` returns a well-keyed
execution when given one, whether or not any vertex has a status; and on every
execution, also when `Vertices` is nil, every key reads after `MarkExecutionPhase` as
it did before, a nil map having become an empty one. -/
theorem C18_stable_keys (now nowStart nowFinish : Time) (exec : Execution)
    (vertexName : String) (phase : VertexPhase) (message : String) :
    (WellKeyed exec → ∀ vs, GetVertexStatus exec vertexName = some vs →
      (MarkVertexPhase now exec vertexName phase message).1 = Outcome.returned
      ∧ WellKeyed (MarkVertexPhase now exec vertexName phase message).2
      ∧ (∀ k, ((MarkVertexPhase now exec vertexName phase message).2.Status.Vertices.lookup
            k).isSome = (exec.Status.Vertices.lookup k).isSome)
      ∧ (∀ k, k ≠ VertexId vertexName →
          (MarkVertexPhase now exec vertexName phase message).2.Status.Vertices.lookup k
            = exec.Status.Vertices.lookup k)
      ∧ ((MarkVertexPhase now exec vertexName phase message).2.Status.Phase
            = exec.Status.Phase
        ∧ (MarkVertexPhase now exec vertexName phase message).2.Status.Message
            = exec.Status.Message
        ∧ (MarkVertexPhase now exec vertexName phase message).2.Status.StartedAt
            = exec.Status.StartedAt
        ∧ (MarkVertexPhase now exec vertexName phase message).2.Status.FinishedAt
            = exec.Status.FinishedAt)
      ∧ (∃ vs2,
          (MarkVertexPhase now exec vertexName phase message).2.Status.Vertices.lookup
              (VertexId vertexName) = some vs2
          ∧ vs2.ID = vs.ID ∧ vs2.Name = vs.Name ∧ vs2.StartedAt = vs.StartedAt
          ∧ vs2.Children = vs.Children ∧ vs2.Type_ = vs.Type_))
    ∧ (WellKeyed exec →
        WellKeyed (MarkExecutionPhase nowStart nowFinish exec phase message))
    ∧ (∀ k, (MarkExecutionPhase nowStart nowFinish exec phase message).Status.Vertices.lookup
          k = exec.Status.Vertices.lookup k)
    ∧ (MarkExecutionPhase nowStart nowFinish exec phase message).Status.Vertices
        = (match exec.Status.Vertices with
          | some m => some m
          | none => some (fun _ => none)) := by
  refine ⟨?_, ?_, ?_, ?_⟩
  · intro hwk vs h
    rw [getVertexStatus_eq_lookup] at h
    have hid : vs.ID = VertexId vertexName := hwk _ _ h
    obtain ⟨f, hf, hv⟩ := (lookup_some_iff _ _ _).1 h
    have hlk := markVertexPhase_lookup now exec vertexName phase message vs h
    refine ⟨?_, ?_, ?_, ?_, ?_, ?_⟩
    · rw [markVertexPhase_found now exec vertexName phase message f vs hf hv]
    · exact call_run_wellKeyed (Call.markVertex now vertexName phase message) exec hwk
    · intro k
      rw [hlk k]
      by_cases hk : k = vs.ID
      · rw [if_pos hk, hk, hid, h]
        rfl
      · rw [if_neg hk]
    · intro k hk
      rw [hlk k, if_neg (by rw [hid]; exact hk)]
    · exact markVertexPhase_frame now exec vertexName phase message
    · refine ⟨markedStatus now vs phase message, ?_, rfl, rfl, rfl, rfl, rfl⟩
      rw [hlk, if_pos hid.symm]
  · intro hwk
    exact call_run_wellKeyed (Call.markExecution nowStart nowFinish phase message) exec hwk
  · intro k
    exact markExecutionPhase_lookup nowStart nowFinish exec phase message k
  · exact (markExecutionPhase_status nowStart nowFinish exec phase message).2.2.2.2

theorem exFresh_wellKeyed : WellKeyed exFresh := by
  intro k s hs
  exact Option.noConfusion hs

/-- Witness for C18.  On `exKeyed`, marking "a" Running at instant 7 returns and
leaves a well-keyed execution; on the fresh execution `exFresh`, whose `Vertices` is
nil and which has no status for any vertex, `MarkExecutionPhase` leaves a well-keyed
execution with an empty non-nil map in which every key still reads as absent. -/
theorem C18_stable_keys_witness :
    WellKeyed exKeyed
    ∧ GetVertexStatus exKeyed "a" = some (sampleStatus "a" "a" 0)
    ∧ (MarkVertexPhase 7 exKeyed "a" VertexRunning "go").1 = Outcome.returned
    ∧ WellKeyed (MarkVertexPhase 7 exKeyed "a" VertexRunning "go").2
    ∧ WellKeyed exFresh
    ∧ exFresh.Status.Vertices = none
    ∧ WellKeyed (MarkExecutionPhase 8 9 exFresh VertexRunning "go")
    ∧ (∀ k, (MarkExecutionPhase 8 9 exFresh VertexRunning "go").Status.Vertices.lookup k
        = none) :=
  ⟨exKeyed_wellKeyed, by decide,
    ((C18_stable_keys 7 8 9 exKeyed "a" VertexRunning "go").1 exKeyed_wellKeyed
      (sampleStatus "a" "a" 0) (by decide)).1,
    ((C18_stable_keys 7 8 9 exKeyed "a" VertexRunning "go").1 exKeyed_wellKeyed
      (sampleStatus "a" "a" 0) (by decide)).2.1,
    exFresh_wellKeyed, rfl,
    (C18_stable_keys 7 8 9 exFresh "a" VertexRunning "go").2.1 exFresh_wellKeyed,
    (C18_stable_keys 7 8 9 exFresh "a" VertexRunning "go").2.2.1⟩

/-! ## Unknown operators -/

/-- C19: for an operator that is none of the nine known operators, `RuleSatisfied` is
false for every key, every `Values` and every context; this covers the empty
operator; and `RuleSatisfied` is total, giving true or false on every rule and
context. -/
theorem C19_unknown_operator (op : MatchOperator) (key : String) (values : Slice String)
    (kv : KV)
    (h : op ≠ MatchOperatorOpEqual ∧ op ≠ MatchOperatorOpDoubleEqual
      ∧ op ≠ MatchOperatorOpIn ∧ op ≠ MatchOperatorOpNotEqual ∧ op ≠ MatchOperatorOpNotIn
      ∧ op ≠ MatchOperatorOpExists ∧ op ≠ MatchOperatorOpDoesNotExist
      ∧ op ≠ MatchOperatorOpGt ∧ op ≠ MatchOperatorOpLt) :
    RuleSatisfied ⟨key, op, values⟩ kv = false
    ∧ RuleSatisfied ⟨key, "", values⟩ kv = false
    ∧ (∀ (r : MatchRule) (ctx : KV), RuleSatisfied r ctx = true ∨ RuleSatisfied r ctx = false) := by
  obtain ⟨h1, h2, h3, h4, h5, h6, h7, h8, h9⟩ := h
  refine ⟨?_, ?_, ?_⟩
  · simp [RuleSatisfied, h1, h2, h3, h4, h5, h6, h7, h8, h9]
  · simp [RuleSatisfied, MatchOperatorOpIn, MatchOperatorOpEqual, MatchOperatorOpDoubleEqual,
      MatchOperatorOpNotIn, MatchOperatorOpNotEqual, MatchOperatorOpExists,
      MatchOperatorOpDoesNotExist, MatchOperatorOpGt, MatchOperatorOpLt]
  · intro r ctx
    cases RuleSatisfied r ctx
    · exact Or.inr rfl
    · exact Or.inl rfl

/-- Witness for C19 with the operator "Near" on the context n=15. -/
theorem C19_unknown_operator_witness :
    (("Near" : MatchOperator) ≠ MatchOperatorOpEqual
      ∧ ("Near" : MatchOperator) ≠ MatchOperatorOpDoubleEqual
      ∧ ("Near" : MatchOperator) ≠ MatchOperatorOpIn
      ∧ ("Near" : MatchOperator) ≠ MatchOperatorOpNotEqual
      ∧ ("Near" : MatchOperator) ≠ MatchOperatorOpNotIn
      ∧ ("Near" : MatchOperator) ≠ MatchOperatorOpExists
      ∧ ("Near" : MatchOperator) ≠ MatchOperatorOpDoesNotExist
      ∧ ("Near" : MatchOperator) ≠ MatchOperatorOpGt
      ∧ ("Near" : MatchOperator) ≠ MatchOperatorOpLt)
    ∧ RuleSatisfied ⟨"n", "Near", some ["10"]⟩ (kv1 "n" "15") = false :=
  ⟨by decide,
    (C19_unknown_operator "Near" "n" (some ["10"]) (kv1 "n" "15") (by decide)).1⟩

end Kubegene
